import Mathlib

/-!
# OSDb client: the hashing utility and client construction

A shallow embedding of `osdb.go` (package `osdb`): `HashFile`, `hashFromBuffer`,
`HashReader`, `Hash`, `readChunk` and `NewClient`, followed by theorems about them.

Conventions of the embedding:

* a Go `uint64` is a `Nat` reduced `% 2 ^ 64` wherever the Go code can wrap;
* a Go result `(hash uint64, err error)` is the pair `(hash, err)` with
  `err : Option Error`, `none` standing for the `nil` error;
* the operating system and the stream behind an `io.ReadSeeker` are explicit
  inputs: a `File` carries its content together with the errors its system
  calls report, a `ReadSeeker` is a state machine.
-/

namespace Osdb

/-- One byte. -/
abbrev Byte := Fin 256

/-- The constant `ChunkSize` of `osdb.go` (64k). -/
def ChunkSize : Nat := 65536

/-- Go `error` values that occur in `osdb.go` and in the library calls it makes. -/
inductive Error where
  /-- The error `fmt.Errorf("File is too small")`. -/
  | fileTooSmall
  /-- The error `fmt.Errorf("Invalid read %v", n)`. -/
  | invalidRead (n : Nat)
  /-- The error `errors.New("unable to compute hash from reader that read 0 bytes")`. -/
  | readZeroBytes
  /-- The error `io.EOF`. -/
  | EOF
  /-- The error `io.ErrUnexpectedEOF`. -/
  | unexpectedEOF
  /-- The error of `os.File.ReadAt` for a negative offset. -/
  | negativeOffset
  /-- The error of `bytes.Reader.Seek` for a negative position. -/
  | negativePosition
  /-- Any other error reported by the operating system, a stream or a library. -/
  | other (code : Nat)
  deriving DecidableEq, Repr

/-- A Go result `(hash uint64, err error)`. -/
abbrev HashResult := Nat × Option Error

/-! ## Files -/

/-- An open regular file (`*os.File`): its name, its content, and the errors that the
operating system reports for the metadata query and for a read at a given offset
(`none`: the call succeeds). File offsets are `int64`, so a content is shorter than
`2 ^ 63` bytes. -/
structure File where
  name : String
  content : List Byte
  statErr : Option Error
  readErr : Int → Option Error
  size_lt : content.length < 2 ^ 63

/-- The call `file.Stat()` followed by `fi.Size()`: the size of the file as an `int64`,
or the error of the metadata query. -/
def File.Stat (f : File) : Except Error Int :=
  match f.statErr with
  | some e => .error e
  | none => .ok (f.content.length : Int)

/-- The call `file.ReadAt(b, off)` with `len(b) = len`: the bytes stored in `b[:n]` and the
error. As documented for `io.ReaderAt`, fewer than `len` bytes come with a non-nil
error, `io.EOF` at the end of the file. -/
def File.ReadAt (f : File) (len : Nat) (off : Int) : List Byte × Option Error :=
  if off < 0 then ([], some Error.negativeOffset)
  else
    match f.readErr off with
    | some e => ([], some e)
    | none =>
      let data := (f.content.drop off.toNat).take len
      (data, if data.length < len then some Error.EOF else none)

/-- The function `readChunk`: read a chunk of the file at `offset` so as to fill `buf`
(`len(buf) = len`). Returns the new content of `buf` and the error. -/
def readChunk (file : File) (offset : Int) (buf : List Byte) : List Byte × Option Error :=
  let r := file.ReadAt buf.length offset
  let buf1 := r.1 ++ buf.drop r.1.length
  match r.2 with
  | some e => (buf1, some e)
  | none =>
    if r.1.length ≠ ChunkSize then (buf1, some (Error.invalidRead r.1.length))
    else (buf1, none)

/-! ## The hash of a buffer -/

/-- The function `binary.LittleEndian.Uint64` on a slice of 8 bytes:
`b[0] | b[1]<<8 | ... | b[7]<<56` (the shifted bytes do not overlap, so the
bitwise or is a sum). -/
def Uint64 (b : List Byte) : Nat :=
  (b.getD 0 0).val + (b.getD 1 0).val * 2 ^ 8 + (b.getD 2 0).val * 2 ^ 16
    + (b.getD 3 0).val * 2 ^ 24 + (b.getD 4 0).val * 2 ^ 32 + (b.getD 5 0).val * 2 ^ 40
    + (b.getD 6 0).val * 2 ^ 48 + (b.getD 7 0).val * 2 ^ 56

/-- The length of the array `nums` of `hashFromBuffer`: `(ChunkSize * 2) / 8`. -/
def numsLen : Nat := (ChunkSize * 2) / 8

/-- The call `binary.Read(reader, binary.LittleEndian, &nums)` on a fresh
`bytes.NewReader(buf)`, with `nums` a `[numsLen]uint64`: `io.ReadFull` first fills
`8 * numsLen` bytes (`io.EOF` if there are none, `io.ErrUnexpectedEOF` if there are too
few), then word `i` is decoded from bytes `[8 * i, 8 * i + 8)`. -/
def binaryRead (buf : List Byte) : Except Error (List Nat) :=
  if buf.length = 0 then .error Error.EOF
  else if buf.length < 8 * numsLen then .error Error.unexpectedEOF
  else
    let d := buf.take (8 * numsLen)
    .ok ((List.range numsLen).map fun i => Uint64 ((d.drop (8 * i)).take 8))

/-- The function `hashFromBuffer`: convert to `uint64`, and sum, then add the file size. -/
def hashFromBuffer (buf : List Byte) (fileSize : Nat) : HashResult :=
  match binaryRead buf with
  | .error e => (0, some e)
  | .ok nums =>
    let hash := nums.foldl (fun hash num => (hash + num) % 2 ^ 64) 0
    ((hash + fileSize) % 2 ^ 64, none)

/-- The function `HashFile`: generates an OSDB hash for an `*os.File`. -/
def HashFile (file : File) : HashResult :=
  match file.Stat with
  | .error e => (0, some e)
  | .ok size =>
    if size < (ChunkSize : Int) then (0, some Error.fileTooSmall)
    else
      -- Read head and tail blocks.
      let buf : List Byte := List.replicate (ChunkSize * 2) 0
      let r1 := readChunk file 0 (buf.take ChunkSize)
      match r1.2 with
      | some e => (0, some e)
      | none =>
        let r2 := readChunk file (size - (ChunkSize : Int)) (buf.drop ChunkSize)
        match r2.2 with
        | some e => (0, some e)
        | none => hashFromBuffer (r1.1 ++ r2.1) (size.toNat % 2 ^ 64)

/-! ## Opening a file by path -/

/-- A file system, as far as `os.Open` sees it: a path opens to a file or fails. -/
abbrev FileSystem := String → Except Error File

/-- The function `Hash`: generates an OSDB hash for a file. -/
def Hash (fs : FileSystem) (path : String) : HashResult :=
  match fs path with
  | .error e => (0, some e)
  | .ok file => HashFile file

/-! ## Seekable streams -/

/-- The `whence` argument of `Seek`. -/
inductive Whence where
  | SeekStart
  | SeekCurrent
  | SeekEnd
  deriving DecidableEq, Repr

/-- What a call `n, err := reader.Read(p)` leaves behind: the new state of the stream, the
content of the buffer `p` after the call, the count `n` and the error. -/
structure ReadOutcome (σ : Type) where
  state : σ
  buf : List Byte
  n : Nat
  err : Option Error

/-- An `io.ReadSeeker` whose state has type `σ`. `Seek s offset whence` returns the new
state, the new position and the error. `Read s p` is a read into a buffer whose content
is `p`. The buffer keeps its length and, as `io.Reader` demands, `n ≤ len(p)`; nothing
else is assumed: the bytes read are the first `n` bytes of the buffer after the call, and
a reader may have written to the rest of the buffer as well (`io.Reader` lets it use all
of `p` as scratch space). -/
structure ReadSeeker (σ : Type) where
  Seek : σ → Int → Whence → σ × Int × Option Error
  Read : σ → List Byte → ReadOutcome σ
  read_le : ∀ s p, (Read s p).n ≤ p.length
  read_length : ∀ s p, (Read s p).buf.length = p.length

/-- The function `HashReader`, run on the stream `reader` in state `s`. Returns the Go
result and the state in which the stream is left. -/
def HashReader {σ : Type} (reader : ReadSeeker σ) (s : σ) (size : Nat) : HashResult × σ :=
  let buf1 : List Byte := List.replicate ChunkSize 0
  let buf2 : List Byte := List.replicate ChunkSize 0
  -- read Head
  let s1 := (reader.Seek s 0 Whence.SeekStart).1
  let r1 := reader.Read s1 buf1
  let buf1 := r1.buf
  if r1.err ≠ none ∧ r1.err ≠ some Error.EOF then ((0, r1.err), r1.state)
  else if r1.n = 0 then ((0, some Error.readZeroBytes), r1.state)
  else
    -- read Tail
    let s2 := (reader.Seek r1.state (-(ChunkSize : Int)) Whence.SeekEnd).1
    let r2 := reader.Read s2 buf2
    let buf2 := r2.buf
    if r2.err ≠ none ∧ r2.err ≠ some Error.EOF then ((0, r2.err), r2.state)
    else if r2.n = 0 then ((0, some Error.readZeroBytes), r2.state)
    else (hashFromBuffer (buf1 ++ buf2) (size % 2 ^ 64), r2.state)

/-! ## Client construction -/

/-- The process environment: the value of a variable, if it is set. -/
abbrev Environ := String → Option String

/-- The function `os.Getenv`: the value of the variable, empty if it is not set. -/
def Getenv (env : Environ) (key : String) : String :=
  (env key).getD ""

set_option linter.dupNamespace false in
/-- The fields of the struct `Client` that `NewClient` sets: the identification string and
the embedded `*xmlrpc.Client`, of type `τ`. -/
structure Client (τ : Type) where
  UserAgent : String
  Client : τ
  deriving DecidableEq, Repr

/-- The function `NewClient`: allocates a new OSDB client. The constants
`DefaultOSDBServer` and `DefaultUserAgent` are declared outside `osdb.go` and are
parameters, as are the process environment and the constructor `xmlrpc.NewClient`
(applied to the server address; its second argument is always `nil`). -/
def NewClient {τ : Type} (DefaultOSDBServer DefaultUserAgent : String) (env : Environ)
    (xmlrpcNewClient : String → Except Error τ) : Option (Client τ) × Option Error :=
  let osdbServer := Getenv env "OSDB_SERVER"
  let osdbServer := if osdbServer = "" then DefaultOSDBServer else osdbServer
  match xmlrpcNewClient osdbServer with
  | .error err => (none, some err)
  | .ok rpc => (some { UserAgent := DefaultUserAgent, Client := rpc }, none)

/-! ## An in-memory stream

The type `bytes.Reader` of the Go library, the usual in-memory `io.ReadSeeker`. -/

/-- The state of a `bytes.Reader`: the content `s` and the current reading index `i`. -/
structure BytesReader where
  s : List Byte
  i : Int
  deriving DecidableEq, Repr

/-- The method `(*bytes.Reader).Read` on a buffer of content `p`: at the end of the content
it returns `0, io.EOF`; otherwise it copies `n = copy(p, r.s[r.i:])` bytes to the start of
the buffer and leaves the rest of the buffer as it was. -/
def BytesReader.Read (r : BytesReader) (p : List Byte) : ReadOutcome BytesReader :=
  if r.i ≥ (r.s.length : Int) then { state := r, buf := p, n := 0, err := some Error.EOF }
  else
    let data := (r.s.drop r.i.toNat).take p.length
    { state := { r with i := r.i + (data.length : Int) }, buf := data ++ p.drop data.length,
      n := data.length, err := none }

/-- The method `(*bytes.Reader).Seek`. -/
def BytesReader.Seek (r : BytesReader) (offset : Int) (whence : Whence) :
    BytesReader × Int × Option Error :=
  let abs : Int :=
    match whence with
    | Whence.SeekStart => offset
    | Whence.SeekCurrent => r.i + offset
    | Whence.SeekEnd => (r.s.length : Int) + offset
  if abs < 0 then (r, 0, some Error.negativePosition)
  else ({ r with i := abs }, abs, none)

/-- A `bytes.Reader` as an `io.ReadSeeker`. -/
def bytesReadSeeker : ReadSeeker BytesReader where
  Seek := BytesReader.Seek
  Read := BytesReader.Read
  read_le := by
    intro r p
    unfold BytesReader.Read
    split
    · exact Nat.zero_le _
    · exact (List.length_take_le _ _)
  read_length := by
    intro r p
    unfold BytesReader.Read
    split
    · rfl
    · simp only [List.length_append, List.length_take, List.length_drop]
      omega

/-- A stream that hands out at most `k` bytes per read, each of value `1`, wherever it is
positioned (a source that delivers its data in small pieces); it leaves the rest of the
buffer as it was. -/
def shortReadSeeker (k : Nat) : ReadSeeker Unit where
  Seek := fun s _ _ => (s, 0, none)
  Read := fun s p =>
    { state := s, buf := List.replicate (min p.length k) 1 ++ p.drop (min p.length k),
      n := min p.length k, err := none }
  read_le := by
    intro s p
    exact Nat.min_le_left _ _
  read_length := by
    intro s p
    simp only [List.length_append, List.length_replicate, List.length_drop]
    omega

/-- A stream that hands out at most 3 bytes per read, each of value `1`, and uses the rest
of the buffer as scratch space, leaving the value `255` in it. -/
def scratchReadSeeker : ReadSeeker Unit where
  Seek := fun s _ _ => (s, 0, none)
  Read := fun s p =>
    { state := s,
      buf := List.replicate (min p.length 3) 1 ++ List.replicate (p.length - min p.length 3) 255,
      n := min p.length 3, err := none }
  read_le := by
    intro s p
    exact Nat.min_le_left _ _
  read_length := by
    intro s p
    simp only [List.length_append, List.length_replicate]
    omega

/-! ## Specification-side word sums -/

/-- The little-endian 64-bit word stored at byte offset `off` of `c`: byte `off + j`
weighs `256 ^ j`; a byte beyond the end of `c` counts as zero. -/
def leWordAt (c : List Byte) (off : Nat) : Nat :=
  ∑ j in Finset.range 8, (c.getD (off + j) 0).val * 256 ^ j

/-- The sum of the `count` consecutive little-endian 64-bit words of `c` that start at
byte offset `off`. -/
def wordSum (c : List Byte) (off count : Nat) : Nat :=
  ∑ i in Finset.range count, leWordAt c (off + 8 * i)

/-- The head read of `HashReader` on the stream `reader` in state `s`: the read into the
zeroed buffer of 65536 bytes that follows the seek to the start. -/
def headRead {σ : Type} (reader : ReadSeeker σ) (s : σ) : ReadOutcome σ :=
  reader.Read (reader.Seek s 0 Whence.SeekStart).1 (List.replicate 65536 0)

/-- The tail read of `HashReader`: the read into the zeroed buffer of 65536 bytes that
follows the seek to 65536 bytes before the end, made from the state the head read left. -/
def tailRead {σ : Type} (reader : ReadSeeker σ) (s : σ) : ReadOutcome σ :=
  reader.Read (reader.Seek (headRead reader s).state (-65536) Whence.SeekEnd).1
    (List.replicate 65536 0)

/-! ## Sample inputs -/

/-- A file of `131073` bytes without input/output faults: a head block of ones, the byte
`mid`, and a tail block of twos. -/
def sampleFile (name : String) (mid : Byte) : File where
  name := name
  content := List.replicate 65536 1 ++ mid :: List.replicate 65536 2
  statErr := none
  readErr := fun _ => none
  size_lt := by
    rw [List.length_append, List.length_cons, List.length_replicate, List.length_replicate]
    norm_num

/-- A file of exactly `65536` bytes, all ones, without input/output faults. -/
def oneBlockFile : File where
  name := "block"
  content := List.replicate 65536 1
  statErr := none
  readErr := fun _ => none
  size_lt := by
    rw [List.length_replicate]
    norm_num

/-- A file of three bytes on which every read would report an error. -/
def tinyFile : File where
  name := "tiny"
  content := [1, 2, 3]
  statErr := none
  readErr := fun _ => some (Error.other 5)
  size_lt := by decide

/-- A file system in which every path but the empty one opens; the file at a path is the
sample file of that name. -/
def sampleFS : FileSystem := fun path =>
  if path = "" then .error (Error.other 2) else .ok (sampleFile path 0)

/-! ## The words that the hash of a file sums -/

/-- The list of the 8192 little-endian 64-bit words of the 65536-byte block of `c` that
starts at byte offset `off`. -/
def blockWords (c : List Byte) (off : Nat) : List Nat :=
  (List.range 8192).map fun i => leWordAt c (off + 8 * i)

/-- The 16384 words of the head block and of the tail block of a content. -/
def headTailWords (c : List Byte) : List Nat :=
  blockWords c 0 ++ blockWords c (c.length - 65536)

/-- The sample file with its head block and its tail block swapped: a head block of twos,
the byte `mid`, and a tail block of ones. -/
def swappedSampleFile (name : String) (mid : Byte) : File where
  name := name
  content := List.replicate 65536 2 ++ mid :: List.replicate 65536 1
  statErr := none
  readErr := fun _ => none
  size_lt := by
    rw [List.length_append, List.length_cons, List.length_replicate, List.length_replicate]
    norm_num

/-! ## Operations of the client that are declared outside `osdb.go`

The movie identification and subtitle download operations, and the rendering of a hash
as a query key, are not part of `osdb.go`; they are modelled from the specification. The
remote procedures and the base64 and gzip decoders are parameters. -/

/-- Modelled from the spec: the lowercase character of the hexadecimal digit `d < 16`, as
in the hash encoding convention (the body of the hash rendering is missing). -/
def hexDigit (d : Nat) : Char :=
  if d < 10 then Char.ofNat (48 + d) else Char.ofNat (87 + d)

/-- Modelled from the spec: the `k` lowest hexadecimal digits of `hash`, the most
significant first, zeros included (the body of the hash rendering is missing). -/
def hexDigits : Nat → Nat → List Char
  | 0, _ => []
  | k + 1, hash => hexDigit (hash / 16 ^ k % 16) :: hexDigits k hash

/-- Modelled from the spec: the rendering of a 64-bit hash for the remote service, missing
from `osdb.go`: a lowercase hexadecimal string of 16 characters, zero-padded (the format
`%016x` of the tests). -/
def hashString (hash : Nat) : String :=
  String.mk (hexDigits 16 hash)

/-- The value of a hexadecimal digit character, of either case. -/
def hexValue (c : Char) : Option Nat :=
  if '0' ≤ c ∧ c ≤ '9' then some (c.toNat - 48)
  else if 'a' ≤ c ∧ c ≤ 'f' then some (c.toNat - 87)
  else if 'A' ≤ c ∧ c ≤ 'F' then some (c.toNat - 55)
  else none

/-- Reading of a list of hexadecimal digit characters as a base-16 number, continuing from
the value `acc` of the digits already read. -/
def parseHexChars : List Char → Nat → Option Nat
  | [], acc => some acc
  | c :: cs, acc =>
    match hexValue c with
    | none => none
    | some d => parseHexChars cs (acc * 16 + d)

/-- Parsing of a non-empty string as a base-16 number. -/
def parseHex (s : String) : Option Nat :=
  if s.data = [] then none else parseHexChars s.data 0

/-- Modelled from the spec: the subtitle record of the data model, missing from `osdb.go`:
the movie it belongs to, its content hash, file name and language, and its remote
download identifier. -/
structure Subtitle where
  IDMovieImdb : String
  SubHash : String
  SubFileName : String
  SubLanguageID : String
  IDSubtitleFile : Int
  deriving DecidableEq, Repr

/-- Modelled from the spec: a subtitle collection, missing from `osdb.go`: an ordered
sequence of subtitle records. -/
abbrev Subtitles := List Subtitle

/-- Modelled from the spec: a downloaded subtitle file, missing from `osdb.go`: the
payload with the base64 layer decoded, still compressed. -/
structure SubtitleFile where
  Data : List Byte
  deriving DecidableEq, Repr

/-- The decoders of the Go library that the download operation uses. -/
structure Decoders where
  base64Decode : String → Except Error (List Byte)
  gunzip : List Byte → Except Error (List Byte)

/-- Modelled from the spec: the operation of a downloaded subtitle file, missing from
`osdb.go`, that gives the decompressed content; the decompression is done afresh at each
request. -/
def SubtitleFile.Reader (dec : Decoders) (sf : SubtitleFile) : Except Error (List Byte) :=
  dec.gunzip sf.Data

/-- Modelled from the spec: the decoding of the base64 layer of each downloaded content, in
order; a malformed envelope fails the download (the download operation is missing from
`osdb.go`). -/
def decodeFiles (dec : Decoders) : List String → Except Error (List SubtitleFile)
  | [] => .ok []
  | enc :: encs =>
    match dec.base64Decode enc with
    | .error err => .error err
    | .ok data =>
      match decodeFiles dec encs with
      | .error err => .error err
      | .ok files => .ok ({ Data := data } :: files)

/-- Modelled from the spec: the subtitle download procedure of the remote service, missing
from `osdb.go`. Given the session token and the download identifiers, the call fails or
returns the base64 text of each content, in the order of the identifiers. -/
abbrev DownloadCall := String → List Int → Except Error (List String)

/-- Modelled from the spec: the operation `DownloadSubtitlesByIds`, missing from `osdb.go`:
one remote call with the full list of identifiers and the session token, then the
decoding of the base64 layer of each result. -/
def DownloadSubtitlesByIds (call : DownloadCall) (dec : Decoders) (token : String)
    (ids : List Int) : Except Error (List SubtitleFile) :=
  match call token ids with
  | .error err => .error err
  | .ok encs => decodeFiles dec encs

/-- Modelled from the spec: the operation `DownloadSubtitles`, missing from `osdb.go`: the
download identifier of each record is extracted, in record order, and the by-identifier
entry point is invoked with that list. -/
def DownloadSubtitles (call : DownloadCall) (dec : Decoders) (token : String)
    (subtitles : Subtitles) : Except Error (List SubtitleFile) :=
  DownloadSubtitlesByIds call dec token (subtitles.map fun sub => sub.IDSubtitleFile)

/-- A download procedure that returns one short text per identifier. -/
def sampleDownload : DownloadCall := fun _ ids => .ok (ids.map fun _ => "AQI=")

/-- Decoders for the sample download: every text decodes to two bytes, and the
decompression duplicates the payload. -/
def sampleDecoders : Decoders where
  base64Decode := fun _ => .ok [1, 2]
  gunzip := fun data => .ok (data ++ data)

/-- A subtitle record with the download identifier `id`. -/
def sampleSubtitle (id : Int) : Subtitle :=
  { IDMovieImdb := "0403358", SubHash := "", SubFileName := "", SubLanguageID := "eng",
    IDSubtitleFile := id }

/-! ## Lemmas on buffers and word sums -/

theorem getD_drop_take (d : List Byte) (off j : Nat) (hj : j < 8) :
    ((d.drop off).take 8).getD j 0 = d.getD (off + j) 0 := by
  simp [List.getD_eq_getElem?_getD, List.getElem?_take, List.getElem?_drop, hj]

theorem Uint64_drop_take (d : List Byte) (off : Nat) :
    Uint64 ((d.drop off).take 8) = leWordAt d off := by
  unfold Uint64 leWordAt
  simp only [Finset.sum_range_succ, Finset.sum_range_zero]
  rw [getD_drop_take d off 0 (by omega), getD_drop_take d off 1 (by omega),
    getD_drop_take d off 2 (by omega), getD_drop_take d off 3 (by omega),
    getD_drop_take d off 4 (by omega), getD_drop_take d off 5 (by omega),
    getD_drop_take d off 6 (by omega), getD_drop_take d off 7 (by omega)]
  norm_num

theorem foldl_add_mod (M : Nat) (l : List Nat) (a : Nat) :
    l.foldl (fun hash num => (hash + num) % M) (a % M) = (a + l.sum) % M := by
  induction l generalizing a with
  | nil => simp
  | cons x xs ih =>
    simp only [List.foldl_cons, List.sum_cons]
    rw [Nat.mod_add_mod, ih, Nat.add_assoc]

theorem sum_map_range (f : Nat → Nat) (n : Nat) :
    ((List.range n).map f).sum = ∑ i in Finset.range n, f i := by
  induction n with
  | zero => simp
  | succ n ih => simp [List.range_succ, Finset.sum_range_succ, ih]


theorem leWordAt_congr (c d : List Byte) (off off2 : Nat)
    (h : ∀ j, j < 8 → c.getD (off + j) 0 = d.getD (off2 + j) 0) :
    leWordAt c off = leWordAt d off2 := by
  unfold leWordAt
  apply Finset.sum_congr rfl
  intro j hj
  rw [h j (Finset.mem_range.mp hj)]

theorem wordSum_congr (c d : List Byte) (off off2 count : Nat)
    (h : ∀ k, k < 8 * count → c.getD (off + k) 0 = d.getD (off2 + k) 0) :
    wordSum c off count = wordSum d off2 count := by
  unfold wordSum
  apply Finset.sum_congr rfl
  intro i hi
  have hi2 := Finset.mem_range.mp hi
  apply leWordAt_congr
  intro j hj
  have := h (8 * i + j) (by omega)
  simpa [Nat.add_assoc] using this

theorem wordSum_add (c : List Byte) (off m k : Nat) :
    wordSum c off (m + k) = wordSum c off m + wordSum c (off + 8 * m) k := by
  unfold wordSum
  rw [Finset.sum_range_add]
  congr 1
  apply Finset.sum_congr rfl
  intro i _
  congr 1
  ring

theorem getD_take_of_lt (c : List Byte) (n k : Nat) (h : k < n) :
    (c.take n).getD k 0 = c.getD k 0 := by
  simp [List.getD_eq_getElem?_getD, List.getElem?_take, h]

theorem getD_drop_add (c : List Byte) (n k : Nat) :
    (c.drop n).getD k 0 = c.getD (n + k) 0 := by
  simp [List.getD_eq_getElem?_getD, List.getElem?_drop]

theorem getD_append_of_lt (a b : List Byte) (k : Nat) (h : k < a.length) :
    (a ++ b).getD k 0 = a.getD k 0 := by
  simp [List.getD_eq_getElem?_getD, List.getElem?_append_left h]

theorem getD_append_add (a b : List Byte) (k : Nat) :
    (a ++ b).getD (a.length + k) 0 = b.getD k 0 := by
  simp [List.getD_eq_getElem?_getD, List.getElem?_append_right]

theorem getD_append_replicate_zero (a : List Byte) (n k : Nat) :
    (a ++ List.replicate n 0).getD k 0 = a.getD k 0 := by
  by_cases h : k < a.length
  · exact getD_append_of_lt a _ k h
  · rw [List.getD_eq_getElem?_getD, List.getD_eq_getElem?_getD,
      List.getElem?_append_right (by omega), List.getElem?_eq_none (l := a) (by omega),
      List.getElem?_replicate]
    by_cases h2 : k - a.length < n
    · simp [h2]
    · simp [h2]

theorem binaryRead_ok (buf : List Byte) (h : 8 * numsLen ≤ buf.length) :
    binaryRead buf
      = .ok ((List.range numsLen).map fun i => leWordAt buf (8 * i)) := by
  have hn : numsLen = 16384 := rfl
  have key : ((List.range numsLen).map fun i =>
      Uint64 (((buf.take (8 * numsLen)).drop (8 * i)).take 8))
      = (List.range numsLen).map fun i => leWordAt buf (8 * i) := by
    apply List.map_congr_left
    intro i hi
    have hi2 := List.mem_range.mp hi
    rw [Uint64_drop_take]
    apply leWordAt_congr
    intro j hj
    exact getD_take_of_lt buf _ _ (by omega)
  unfold binaryRead
  rw [if_neg (by omega), if_neg (by omega)]
  simp only [key]

theorem hashFromBuffer_ok (buf : List Byte) (fileSize : Nat) (h : 8 * numsLen ≤ buf.length) :
    hashFromBuffer buf fileSize = ((wordSum buf 0 numsLen + fileSize) % 2 ^ 64, none) := by
  unfold hashFromBuffer
  rw [binaryRead_ok buf h]
  simp only
  have := foldl_add_mod (2 ^ 64) ((List.range numsLen).map fun i => leWordAt buf (8 * i)) 0
  rw [Nat.zero_mod, Nat.zero_add, sum_map_range] at this
  rw [this, Nat.mod_add_mod]
  simp [wordSum]


theorem readChunk_full (f : File) (off : Nat) (buf : List Byte) (hb : buf.length = ChunkSize)
    (hr : f.readErr (off : Int) = none) (hlen : off + ChunkSize ≤ f.content.length) :
    readChunk f (off : Int) buf = ((f.content.drop off).take ChunkSize, none) := by
  have hd : ((f.content.drop off).take ChunkSize).length = ChunkSize := by
    rw [List.length_take, List.length_drop]; omega
  unfold readChunk File.ReadAt
  rw [if_neg (by omega), hr, hb]
  simp only [Int.toNat_ofNat, hd, lt_irrefl, if_false, ne_eq, not_true_eq_false]
  rw [List.drop_of_length_le (l := buf) (by omega), List.append_nil]

theorem HashFile_large (f : File) (hs : f.statErr = none) (h0 : f.readErr 0 = none)
    (h1 : f.readErr ((f.content.length : Int) - (ChunkSize : Int)) = none)
    (hn : ChunkSize ≤ f.content.length) :
    HashFile f
      = ((wordSum f.content 0 8192 + wordSum f.content (f.content.length - ChunkSize) 8192
          + f.content.length) % 2 ^ 64, none) := by
  have hC : ChunkSize = 65536 := rfl
  have hN : numsLen = 16384 := rfl
  have hlt := f.size_lt
  have hsub : (f.content.length : Int) - (ChunkSize : Int)
      = ((f.content.length - ChunkSize : Nat) : Int) := by omega
  have hb1 : ((List.replicate (ChunkSize * 2) (0 : Byte)).take ChunkSize).length = ChunkSize := by
    rw [List.length_take, List.length_replicate]; omega
  have hb2 : ((List.replicate (ChunkSize * 2) (0 : Byte)).drop ChunkSize).length = ChunkSize := by
    rw [List.length_drop, List.length_replicate]; omega
  have r1 := readChunk_full f 0 _ hb1 h0 (by omega)
  have r2 := readChunk_full f (f.content.length - ChunkSize) _ hb2 (hsub ▸ h1) (by omega)
  have hl1 : ((f.content.drop 0).take ChunkSize).length = ChunkSize := by
    rw [List.length_take, List.length_drop]; omega
  have hl2 : ((f.content.drop (f.content.length - ChunkSize)).take ChunkSize).length
      = ChunkSize := by
    rw [List.length_take, List.length_drop]; omega
  unfold HashFile File.Stat
  rw [hs]
  simp only
  rw [if_neg (by omega), hsub]
  simp only [Nat.cast_zero] at r1
  rw [r1, r2]
  simp only [Int.toNat_ofNat]
  rw [hashFromBuffer_ok _ _ (by rw [List.length_append, hl1, hl2]; omega)]
  have e1 : wordSum ((f.content.drop 0).take ChunkSize
        ++ (f.content.drop (f.content.length - ChunkSize)).take ChunkSize) 0 numsLen
      = wordSum f.content 0 8192
        + wordSum f.content (f.content.length - ChunkSize) 8192 := by
    rw [hN, show (16384 : Nat) = 8192 + 8192 from rfl, wordSum_add]
    have a1 : wordSum ((f.content.drop 0).take ChunkSize
        ++ (f.content.drop (f.content.length - ChunkSize)).take ChunkSize) 0 8192
        = wordSum f.content 0 8192 := by
      apply wordSum_congr
      intro k hk
      rw [Nat.zero_add, getD_append_of_lt _ _ _ (by omega), List.drop_zero,
        getD_take_of_lt _ _ _ (by omega)]
    have a2 : wordSum ((f.content.drop 0).take ChunkSize
        ++ (f.content.drop (f.content.length - ChunkSize)).take ChunkSize) (0 + 8 * 8192) 8192
        = wordSum f.content (f.content.length - ChunkSize) 8192 := by
      apply wordSum_congr
      intro k hk
      have : 0 + 8 * 8192 + k = ((f.content.drop 0).take ChunkSize).length + k := by omega
      rw [this, getD_append_add, getD_take_of_lt _ _ _ (by omega), getD_drop_add]
    rw [a1, a2]
  rw [e1, Nat.mod_eq_of_lt (a := f.content.length) (by omega)]

theorem readChunk_err (f : File) (off : Int) (buf : List Byte) (e : Error) (h0 : 0 ≤ off)
    (hr : f.readErr off = some e) : (readChunk f off buf).2 = some e := by
  unfold readChunk File.ReadAt
  rw [if_neg (by omega), hr]

theorem HashFile_stat_err (f : File) (e : Error) (hs : f.statErr = some e) :
    HashFile f = (0, some e) := by
  unfold HashFile File.Stat
  rw [hs]

theorem HashFile_small (f : File) (hs : f.statErr = none) (hn : f.content.length < ChunkSize) :
    HashFile f = (0, some Error.fileTooSmall) := by
  unfold HashFile File.Stat
  rw [hs]
  simp only
  rw [if_pos (by omega)]

theorem HashFile_head_err (f : File) (e : Error) (hs : f.statErr = none)
    (hn : ChunkSize ≤ f.content.length) (h0 : f.readErr 0 = some e) :
    HashFile f = (0, some e) := by
  unfold HashFile File.Stat
  rw [hs]
  simp only
  rw [if_neg (by omega), readChunk_err f 0 _ e (le_refl _) h0]

theorem HashFile_tail_err (f : File) (e : Error) (hs : f.statErr = none)
    (hn : ChunkSize ≤ f.content.length) (h0 : f.readErr 0 = none)
    (h1 : f.readErr ((f.content.length : Int) - (ChunkSize : Int)) = some e) :
    HashFile f = (0, some e) := by
  have hC : ChunkSize = 65536 := rfl
  have hb1 : ((List.replicate (ChunkSize * 2) (0 : Byte)).take ChunkSize).length = ChunkSize := by
    rw [List.length_take, List.length_replicate]; omega
  have r1 := readChunk_full f 0 _ hb1 h0 (by omega)
  simp only [Nat.cast_zero] at r1
  unfold HashFile File.Stat
  rw [hs]
  simp only
  rw [if_neg (by omega), r1]
  simp only
  rw [readChunk_err f _ _ e (by omega) h1]

theorem wordSum_take_head (c d : List Byte) (h : c.take 65536 = d.take 65536) :
    wordSum c 0 8192 = wordSum d 0 8192 := by
  apply wordSum_congr
  intro k hk
  rw [Nat.zero_add, ← getD_take_of_lt c 65536 k (by omega), h,
    getD_take_of_lt d 65536 k (by omega)]

theorem wordSum_drop_tail (c d : List Byte) (m : Nat) (h : c.drop m = d.drop m) :
    wordSum c m 8192 = wordSum d m 8192 := by
  apply wordSum_congr
  intro k _
  rw [← getD_drop_add c m k, h, getD_drop_add d m k]

theorem sampleFile_content (name : String) (mid : Byte) :
    (sampleFile name mid).content
      = List.replicate 65536 1 ++ mid :: List.replicate 65536 2 := rfl

theorem sampleFile_length (name : String) (mid : Byte) :
    (sampleFile name mid).content.length = 131073 := by
  rw [sampleFile_content, List.length_append, List.length_cons, List.length_replicate,
    List.length_replicate]

theorem sampleFile_drop (mid : Byte) :
    (List.replicate 65536 (1 : Byte) ++ mid :: List.replicate 65536 2).drop (131073 - 65536)
      = List.replicate 65536 2 := by
  have e : List.replicate 65536 (1 : Byte) ++ mid :: List.replicate 65536 2
      = (List.replicate 65536 (1 : Byte) ++ [mid]) ++ List.replicate 65536 2 := by
    rw [List.append_assoc, List.singleton_append]
  rw [e]
  exact List.drop_left' (by rw [List.length_append, List.length_replicate, List.length_singleton])

theorem oneBlockFile_content : oneBlockFile.content = List.replicate 65536 1 := rfl

theorem leWordAt_replicate (n : Nat) (b : Byte) (off : Nat) (h : off + 8 ≤ n) :
    leWordAt (List.replicate n b) off = b.val * 72340172838076673 := by
  have g : ∀ j, j < 8 → (List.replicate n b).getD (off + j) 0 = b := by
    intro j hj
    rw [List.getD_eq_getElem?_getD, List.getElem?_replicate, if_pos (by omega)]
    rfl
  unfold leWordAt
  rw [Finset.sum_congr rfl (fun j hj => by rw [g j (Finset.mem_range.mp hj)]),
    ← Finset.mul_sum]
  rfl

theorem wordSum_replicate (n : Nat) (b : Byte) (off count : Nat) (h : off + 8 * count ≤ n) :
    wordSum (List.replicate n b) off count = count * (b.val * 72340172838076673) := by
  unfold wordSum
  rw [Finset.sum_congr rfl (fun i hi => leWordAt_replicate n b (off + 8 * i) (by
    have := Finset.mem_range.mp hi
    omega)), Finset.sum_const, Finset.card_range, smul_eq_mul]

theorem sampleFile_head (mid : Byte) :
    wordSum (List.replicate 65536 (1 : Byte) ++ mid :: List.replicate 65536 2) 0 8192
      = 8192 * 72340172838076673 := by
  have e : wordSum (List.replicate 65536 (1 : Byte) ++ mid :: List.replicate 65536 2) 0 8192
      = wordSum (List.replicate 65536 (1 : Byte)) 0 8192 := by
    apply wordSum_congr
    intro k hk
    rw [getD_append_of_lt _ _ _ (by rw [List.length_replicate]; omega)]
  rw [e, wordSum_replicate 65536 1 0 8192 (by norm_num), Fin.val_one, Nat.one_mul]

theorem sampleFile_tail (mid : Byte) :
    wordSum (List.replicate 65536 (1 : Byte) ++ mid :: List.replicate 65536 2)
        (131073 - 65536) 8192
      = 8192 * (2 * 72340172838076673) := by
  have e : wordSum (List.replicate 65536 (1 : Byte) ++ mid :: List.replicate 65536 2)
        (131073 - 65536) 8192
      = wordSum (List.replicate 65536 (2 : Byte)) 0 8192 := by
    apply wordSum_congr
    intro k hk
    rw [← getD_drop_add, sampleFile_drop, Nat.zero_add]
  rw [e, wordSum_replicate 65536 2 0 8192 (by norm_num)]
  rfl

/-! ## The hash of a file -/

/-- C1: for every file whose content has length `n ≥ 65536`, the metadata query and the
reads succeeding, `HashFile` succeeds and returns `(S_head + S_tail + n) mod 2 ^ 64`, where
`S_head` is the sum of the 8192 little-endian 64-bit words of the bytes `[0, 65536)` and
`S_tail` the sum of the 8192 little-endian 64-bit words of the bytes `[n - 65536, n)`. -/
theorem HashFile_eq_head_tail_size (f : File) (hstat : f.statErr = none)
    (hread : ∀ off, f.readErr off = none) (hn : 65536 ≤ f.content.length) :
    HashFile f
      = ((wordSum f.content 0 8192 + wordSum f.content (f.content.length - 65536) 8192
          + f.content.length) % 2 ^ 64, none) :=
  HashFile_large f hstat (hread _) (hread _) hn

/-- Witness of C1: the sample file has 131073 bytes, a head block of ones and a tail
block of twos; its hash is `(3 * 8192 * 0x0101010101010101 + 131073) mod 2 ^ 64`. -/
theorem HashFile_eq_head_tail_size_witness :
    65536 ≤ (sampleFile "a" 0).content.length ∧
    HashFile (sampleFile "a" 0) = (6944656592455491585, none) :=
  have h : 65536 ≤ (sampleFile "a" 0).content.length := by
    rw [sampleFile_length]; norm_num
  ⟨h, (HashFile_eq_head_tail_size (sampleFile "a" 0) rfl (fun _ => rfl) h).trans (by
    rw [sampleFile_length, sampleFile_content, sampleFile_head, sampleFile_tail]
    norm_num)⟩

/-- C2: for every file whose metadata query succeeds, (1) if its reads do not fail either,
`HashFile` fails if and only if the size is strictly less than 65536 bytes; (2) a file of
exactly 65536 bytes is accepted; (3) every smaller file, the empty one included, is
rejected with the error "File is too small", whatever its reads would report: no block is
read before the rejection. -/
theorem HashFile_fails_iff_too_small (f : File) (hstat : f.statErr = none) :
    ((∀ off, f.readErr off = none) →
      ((HashFile f).2 ≠ none ↔ f.content.length < 65536)) ∧
    ((∀ off, f.readErr off = none) → f.content.length = 65536 → (HashFile f).2 = none) ∧
    (f.content.length < 65536 → HashFile f = (0, some Error.fileTooSmall)) := by
  have hC : ChunkSize = 65536 := rfl
  refine ⟨?_, ?_, ?_⟩
  · intro hread
    constructor
    · intro hfail
      by_contra hge
      rw [HashFile_large f hstat (hread _) (hread _) (by omega)] at hfail
      exact hfail rfl
    · intro hlt
      rw [HashFile_small f hstat (by omega)]
      simp
  · intro hread heq
    rw [HashFile_large f hstat (hread _) (hread _) (by omega)]
  · intro hlt
    exact HashFile_small f hstat (by omega)

/-- Witness of C2: the three-byte file, whose reads would all fail, is rejected as too
small, and the file of exactly 65536 bytes is accepted. -/
theorem HashFile_fails_iff_too_small_witness :
    HashFile tinyFile = (0, some Error.fileTooSmall) ∧ (HashFile oneBlockFile).2 = none :=
  ⟨(HashFile_fails_iff_too_small tinyFile rfl).2.2 (by decide),
   (HashFile_fails_iff_too_small oneBlockFile rfl).2.1 (fun _ => rfl)
     (List.length_replicate _ _)⟩

/-- C3: for every file of exactly 65536 bytes (the head block and the tail block are the
same block), the metadata query and the reads succeeding, `HashFile` returns
`(2 * (sum of the 8192 little-endian 64-bit words of that block) + 65536) mod 2 ^ 64`. -/
theorem HashFile_one_block (f : File) (hstat : f.statErr = none)
    (hread : ∀ off, f.readErr off = none) (hn : f.content.length = 65536) :
    HashFile f = ((2 * wordSum f.content 0 8192 + 65536) % 2 ^ 64, none) := by
  have hC : ChunkSize = 65536 := rfl
  rw [HashFile_large f hstat (hread _) (hread _) (by omega), hn, hC, Nat.sub_self, Nat.two_mul]

/-- Witness of C3: the file made of one block of ones; its hash is
`(2 * 8192 * 0x0101010101010101 + 65536) mod 2 ^ 64`. -/
theorem HashFile_one_block_witness :
    oneBlockFile.content.length = 65536 ∧
    HashFile oneBlockFile = (4629771061636972544, none) :=
  ⟨List.length_replicate _ _,
   (HashFile_one_block oneBlockFile rfl (fun _ => rfl) (List.length_replicate _ _)).trans (by
     rw [oneBlockFile_content, wordSum_replicate 65536 1 0 8192 (by norm_num), Fin.val_one]
     norm_num)⟩

/-- C4: the hash depends only on the first 64 KiB, the last 64 KiB and the size. Two files
of the same size `n ≥ 65536` that agree on the bytes `[0, 65536)` and on the bytes
`[n - 65536, n)`, and whose system calls report the same errors (in particular none), get
the same result from `HashFile`, whatever the bytes in between are. -/
theorem HashFile_depends_on_head_tail_size (f g : File)
    (hlen : f.content.length = g.content.length) (hn : 65536 ≤ f.content.length)
    (hhead : f.content.take 65536 = g.content.take 65536)
    (htail : f.content.drop (f.content.length - 65536)
      = g.content.drop (g.content.length - 65536))
    (hstat : f.statErr = g.statErr) (hread : f.readErr = g.readErr) :
    HashFile f = HashFile g := by
  have hC : ChunkSize = 65536 := rfl
  cases hs : f.statErr with
  | some e => rw [HashFile_stat_err f e hs, HashFile_stat_err g e (hstat ▸ hs)]
  | none =>
    have hs2 : g.statErr = none := hstat ▸ hs
    cases h0 : f.readErr 0 with
    | some e =>
      rw [HashFile_head_err f e hs (by omega) h0,
        HashFile_head_err g e hs2 (by omega) (hread ▸ h0)]
    | none =>
      have h02 : g.readErr 0 = none := hread ▸ h0
      cases h1 : f.readErr ((f.content.length : Int) - (ChunkSize : Int)) with
      | some e =>
        have h12 : g.readErr ((g.content.length : Int) - (ChunkSize : Int)) = some e := by
          rw [← hread, ← hlen]; exact h1
        rw [HashFile_tail_err f e hs (by omega) h0 h1,
          HashFile_tail_err g e hs2 (by omega) h02 h12]
      | none =>
        have h12 : g.readErr ((g.content.length : Int) - (ChunkSize : Int)) = none := by
          rw [← hread, ← hlen]; exact h1
        have htail2 : f.content.drop (f.content.length - 65536)
            = g.content.drop (f.content.length - 65536) := by
          rw [htail, hlen]
        rw [HashFile_large f hs h0 h1 (by omega), HashFile_large g hs2 h02 h12 (by omega),
          hC, wordSum_take_head _ _ hhead, ← hlen, wordSum_drop_tail _ _ _ htail2]

/-- Witness of C4: two sample files that differ in the byte between the two blocks. -/
theorem HashFile_depends_on_head_tail_size_witness :
    (sampleFile "a" 0).content ≠ (sampleFile "b" 9).content ∧
    HashFile (sampleFile "a" 0) = HashFile (sampleFile "b" 9) := by
  have hr : (List.replicate 65536 (1 : Byte)).length = 65536 := List.length_replicate _ _
  refine ⟨?_, HashFile_depends_on_head_tail_size (sampleFile "a" 0) (sampleFile "b" 9)
    ?_ ?_ ?_ ?_ rfl rfl⟩
  · rw [sampleFile_content, sampleFile_content]
    intro h
    exact absurd (List.cons.inj (List.append_cancel_left h)).1 (by decide)
  · rw [sampleFile_length, sampleFile_length]
  · rw [sampleFile_length]; norm_num
  · rw [sampleFile_content, sampleFile_content, List.take_left' hr, List.take_left' hr]
  · rw [sampleFile_length, sampleFile_length, sampleFile_content, sampleFile_content,
      sampleFile_drop, sampleFile_drop]

theorem Hash_ok (fs : FileSystem) (path : String) (file : File) (h : fs path = .ok file) :
    Hash fs path = HashFile file := by
  unfold Hash
  rw [h]

theorem Hash_open_err (fs : FileSystem) (path : String) (e : Error) (h : fs path = .error e) :
    Hash fs path = (0, some e) := by
  unfold Hash
  rw [h]

theorem sampleFS_open (path : String) (h : path ≠ "") :
    sampleFS path = .ok (sampleFile path 0) := by
  unfold sampleFS
  rw [if_neg h]

/-- C5: hash determinism. The result of `HashFile` is a function of the file alone, which
hashing does not modify, so hashing a file twice yields the same value; and for two
byte-identical files of at least 65536 bytes, opened at the paths `p` and `q` (the same or
different ones) with their metadata queries and reads succeeding, `HashFile` and `Hash`
succeed and yield the same 64-bit value. -/
theorem Hash_deterministic (fs : FileSystem) (p q : String) (f g : File)
    (hp : fs p = .ok f) (hq : fs q = .ok g) (hc : f.content = g.content)
    (hn : 65536 ≤ f.content.length)
    (hfs : f.statErr = none) (hfr : ∀ off, f.readErr off = none)
    (hgs : g.statErr = none) (hgr : ∀ off, g.readErr off = none) :
    HashFile f = HashFile g ∧ Hash fs p = Hash fs q ∧ (Hash fs p).2 = none
      ∧ (Hash fs p).1 < 2 ^ 64 := by
  have hC : ChunkSize = 65536 := rfl
  have e1 := HashFile_large f hfs (hfr _) (hfr _) (by omega)
  have e2 := HashFile_large g hgs (hgr _) (hgr _) (by rw [← hc]; omega)
  rw [← hc] at e2
  rw [Hash_ok fs p f hp, Hash_ok fs q g hq, e2, e1]
  exact ⟨rfl, rfl, rfl, Nat.mod_lt _ (by norm_num)⟩

/-- Witness of C5: the sample files at the paths "a" and "b" are byte-identical. -/
theorem Hash_deterministic_witness :
    HashFile (sampleFile "a" 0) = HashFile (sampleFile "b" 0)
      ∧ Hash sampleFS "a" = Hash sampleFS "b" ∧ (Hash sampleFS "a").2 = none
      ∧ (Hash sampleFS "a").1 < 2 ^ 64 :=
  Hash_deterministic sampleFS "a" "b" (sampleFile "a" 0) (sampleFile "b" 0)
    (sampleFS_open "a" (by decide)) (sampleFS_open "b" (by decide)) rfl
    (by rw [sampleFile_length]; norm_num) rfl (fun _ => rfl) rfl (fun _ => rfl)

/-! ## The hash of a stream -/

theorem HashReader_unfold {σ : Type} (reader : ReadSeeker σ) (s : σ) (size : Nat) :
    HashReader reader s size =
      if (headRead reader s).err ≠ none ∧ (headRead reader s).err ≠ some Error.EOF then
        ((0, (headRead reader s).err), (headRead reader s).state)
      else if (headRead reader s).n = 0 then
        ((0, some Error.readZeroBytes), (headRead reader s).state)
      else if (tailRead reader s).err ≠ none ∧ (tailRead reader s).err ≠ some Error.EOF then
        ((0, (tailRead reader s).err), (tailRead reader s).state)
      else if (tailRead reader s).n = 0 then
        ((0, some Error.readZeroBytes), (tailRead reader s).state)
      else (hashFromBuffer ((headRead reader s).buf ++ (tailRead reader s).buf)
        (size % 2 ^ 64), (tailRead reader s).state) := by
  have hC : (ChunkSize : Int) = 65536 := rfl
  have hC2 : ChunkSize = 65536 := rfl
  unfold HashReader tailRead headRead
  simp only [hC]
  simp only [hC2]

theorem HashReader_result {σ : Type} (reader : ReadSeeker σ) (s : σ) (size : Nat) :
    (HashReader reader s size).1 =
      if (headRead reader s).err ≠ none ∧ (headRead reader s).err ≠ some Error.EOF then
        (0, (headRead reader s).err)
      else if (headRead reader s).n = 0 then (0, some Error.readZeroBytes)
      else if (tailRead reader s).err ≠ none ∧ (tailRead reader s).err ≠ some Error.EOF then
        (0, (tailRead reader s).err)
      else if (tailRead reader s).n = 0 then (0, some Error.readZeroBytes)
      else hashFromBuffer ((headRead reader s).buf ++ (tailRead reader s).buf)
        (size % 2 ^ 64) := by
  rw [HashReader_unfold]
  split_ifs <;> rfl

theorem HashReader_state {σ : Type} (reader : ReadSeeker σ) (s : σ) (size : Nat) :
    (HashReader reader s size).2 =
      if ((headRead reader s).err ≠ none ∧ (headRead reader s).err ≠ some Error.EOF)
          ∨ (headRead reader s).n = 0 then (headRead reader s).state
      else (tailRead reader s).state := by
  rw [HashReader_unfold]
  by_cases c1 : (headRead reader s).err ≠ none ∧ (headRead reader s).err ≠ some Error.EOF
  · rw [if_pos c1, if_pos (Or.inl c1)]
  · rw [if_neg c1]
    by_cases c2 : (headRead reader s).n = 0
    · rw [if_pos c2, if_pos (Or.inr c2)]
    · have c12 : ¬ (((headRead reader s).err ≠ none
          ∧ (headRead reader s).err ≠ some Error.EOF) ∨ (headRead reader s).n = 0) := by
        intro h
        rcases h with h | h
        · exact c1 h
        · exact c2 h
      rw [if_neg c2, if_neg c12]
      split_ifs <;> rfl

theorem headRead_buf_length {σ : Type} (reader : ReadSeeker σ) (s : σ) :
    (headRead reader s).buf.length = 65536 := by
  unfold headRead
  rw [reader.read_length, List.length_replicate]

theorem tailRead_buf_length {σ : Type} (reader : ReadSeeker σ) (s : σ) :
    (tailRead reader s).buf.length = 65536 := by
  unfold tailRead
  rw [reader.read_length, List.length_replicate]

theorem headRead_n_le {σ : Type} (reader : ReadSeeker σ) (s : σ) :
    (headRead reader s).n ≤ 65536 := by
  unfold headRead
  have h := reader.read_le (reader.Seek s 0 Whence.SeekStart).1 (List.replicate 65536 0)
  rw [List.length_replicate] at h
  exact h

theorem tailRead_n_le {σ : Type} (reader : ReadSeeker σ) (s : σ) :
    (tailRead reader s).n ≤ 65536 := by
  unfold tailRead
  have h := reader.read_le
    (reader.Seek (headRead reader s).state (-65536) Whence.SeekEnd).1 (List.replicate 65536 0)
  rw [List.length_replicate] at h
  exact h

theorem wordSum_beyond (c : List Byte) (off count : Nat) (h : c.length ≤ off) :
    wordSum c off count = 0 := by
  unfold wordSum
  apply Finset.sum_eq_zero
  intro i _
  unfold leWordAt
  apply Finset.sum_eq_zero
  intro j _
  rw [List.getD_eq_getElem?_getD, List.getElem?_eq_none (by omega)]
  simp

theorem wordSum_zero_extend (d : List Byte) (h : d.length ≤ ChunkSize) :
    wordSum d 0 8192 = wordSum d 0 ((d.length + 7) / 8) := by
  have hC : ChunkSize = 65536 := rfl
  have e : (d.length + 7) / 8 + (8192 - (d.length + 7) / 8) = 8192 := by omega
  have key := wordSum_add d 0 ((d.length + 7) / 8) (8192 - (d.length + 7) / 8)
  rw [e, wordSum_beyond d (0 + 8 * ((d.length + 7) / 8)) _ (by omega), Nat.add_zero] at key
  exact key

theorem wordSum_two_blocks (b1 b2 : List Byte) (h1 : b1.length = 65536) :
    wordSum (b1 ++ b2) 0 numsLen = wordSum b1 0 8192 + wordSum b2 0 8192 := by
  have hN : numsLen = 16384 := rfl
  rw [hN, show (16384 : Nat) = 8192 + 8192 from rfl, wordSum_add]
  have a1 : wordSum (b1 ++ b2) 0 8192 = wordSum b1 0 8192 := by
    apply wordSum_congr
    intro k hk
    rw [Nat.zero_add, getD_append_of_lt _ _ _ (by omega)]
  have a2 : wordSum (b1 ++ b2) (0 + 8 * 8192) 8192 = wordSum b2 0 8192 := by
    apply wordSum_congr
    intro k hk
    have e : 0 + 8 * 8192 + k = b1.length + k := by omega
    rw [e, getD_append_add, Nat.zero_add]
  rw [a1, a2]

theorem HashReader_success {σ : Type} (reader : ReadSeeker σ) (s : σ) (size : Nat)
    (he1 : (headRead reader s).err = none ∨ (headRead reader s).err = some Error.EOF)
    (hn1 : (headRead reader s).n ≠ 0)
    (he2 : (tailRead reader s).err = none ∨ (tailRead reader s).err = some Error.EOF)
    (hn2 : (tailRead reader s).n ≠ 0) :
    (HashReader reader s size).1
      = ((wordSum (headRead reader s).buf 0 8192 + wordSum (tailRead reader s).buf 0 8192
          + size) % 2 ^ 64, none) := by
  have hN : numsLen = 16384 := rfl
  have l1 := headRead_buf_length reader s
  have l2 := tailRead_buf_length reader s
  have c1 : ¬ ((headRead reader s).err ≠ none ∧ (headRead reader s).err ≠ some Error.EOF) := by
    rintro ⟨a, b⟩
    rcases he1 with h | h
    · exact a h
    · exact b h
  have c2 : ¬ ((tailRead reader s).err ≠ none ∧ (tailRead reader s).err ≠ some Error.EOF) := by
    rintro ⟨a, b⟩
    rcases he2 with h | h
    · exact a h
    · exact b h
  rw [HashReader_result, if_neg c1, if_neg hn1, if_neg c2, if_neg hn2,
    hashFromBuffer_ok _ _ (by rw [List.length_append, l1, l2]; omega),
    wordSum_two_blocks _ _ l1, Nat.add_mod_mod]

theorem HashReader_failure {σ : Type} (reader : ReadSeeker σ) (s : σ) (size : Nat)
    (h : ¬ (((headRead reader s).err = none ∨ (headRead reader s).err = some Error.EOF)
      ∧ (headRead reader s).n ≠ 0
      ∧ ((tailRead reader s).err = none ∨ (tailRead reader s).err = some Error.EOF)
      ∧ (tailRead reader s).n ≠ 0)) :
    (HashReader reader s size).1.1 = 0 ∧ (HashReader reader s size).1.2 ≠ none
      ∧ ∀ size2, (HashReader reader s size2).1 = (HashReader reader s size).1 := by
  have key : ∀ sz, (HashReader reader s sz).1.1 = 0 ∧ (HashReader reader s sz).1.2 ≠ none
      ∧ (HashReader reader s sz).1 = (HashReader reader s 0).1 := by
    intro sz
    rw [HashReader_result, HashReader_result]
    by_cases c1 : (headRead reader s).err ≠ none ∧ (headRead reader s).err ≠ some Error.EOF
    · rw [if_pos c1, if_pos c1]
      exact ⟨rfl, c1.1, rfl⟩
    · rw [if_neg c1, if_neg c1]
      by_cases c2 : (headRead reader s).n = 0
      · rw [if_pos c2, if_pos c2]
        exact ⟨rfl, by simp, rfl⟩
      · rw [if_neg c2, if_neg c2]
        by_cases c3 : (tailRead reader s).err ≠ none
            ∧ (tailRead reader s).err ≠ some Error.EOF
        · rw [if_pos c3, if_pos c3]
          exact ⟨rfl, c3.1, rfl⟩
        · rw [if_neg c3, if_neg c3]
          by_cases c4 : (tailRead reader s).n = 0
          · rw [if_pos c4, if_pos c4]
            exact ⟨rfl, by simp, rfl⟩
          · exfalso
            apply h
            refine ⟨?_, c2, ?_, c4⟩
            · by_contra hh
              push_neg at hh
              exact c1 hh
            · by_contra hh
              push_neg at hh
              exact c3 hh
  refine ⟨(key size).1, (key size).2.1, ?_⟩
  intro size2
  rw [(key size2).2.2, (key size).2.2]

/-- C6: for every seekable stream and every supplied size, if the head read (after the
seek to the start) returns zero bytes, or the tail read (after the seek to 65536 bytes
before the end) returns zero bytes, `HashReader` fails with an error and returns no hash
(the hash is 0); in particular `HashReader` fails on every empty stream, one whose reads
all return zero bytes. -/
theorem HashReader_zero_bytes_fails {σ : Type} (reader : ReadSeeker σ) (s : σ) (size : Nat) :
    ((headRead reader s).n = 0 →
      (HashReader reader s size).1.2 ≠ none ∧ (HashReader reader s size).1.1 = 0) ∧
    ((tailRead reader s).n = 0 →
      (HashReader reader s size).1.2 ≠ none ∧ (HashReader reader s size).1.1 = 0) ∧
    ((∀ t p, (reader.Read t p).n = 0) →
      (HashReader reader s size).1.2 ≠ none ∧ (HashReader reader s size).1.1 = 0) := by
  have head : (headRead reader s).n = 0 →
      (HashReader reader s size).1.2 ≠ none ∧ (HashReader reader s size).1.1 = 0 := by
    intro h0
    have hf := HashReader_failure reader s size (fun hh => hh.2.1 h0)
    exact ⟨hf.2.1, hf.1⟩
  refine ⟨head, ?_, ?_⟩
  · intro h0
    have hf := HashReader_failure reader s size (fun hh => hh.2.2.2 h0)
    exact ⟨hf.2.1, hf.1⟩
  · intro hall
    exact head (hall _ _)

theorem wordSum_of_zero_rest (b : List Byte) (n : Nat) (hb : b.length = 65536)
    (hn : n ≤ 65536) (h : b.drop n = List.replicate (65536 - n) 0) :
    wordSum b 0 8192 = wordSum (b.take n) 0 ((n + 7) / 8) := by
  have hC : ChunkSize = 65536 := rfl
  have e : b.take n ++ List.replicate (65536 - n) 0 = b := by
    rw [← h, List.take_append_drop]
  have hl : (b.take n).length = n := by
    rw [List.length_take]; omega
  have a1 : wordSum b 0 8192 = wordSum (b.take n ++ List.replicate (65536 - n) 0) 0 8192 := by
    rw [e]
  have a2 : wordSum (b.take n ++ List.replicate (65536 - n) 0) 0 8192
      = wordSum (b.take n) 0 8192 := by
    apply wordSum_congr
    intro k _
    rw [getD_append_replicate_zero]
  have a3 := wordSum_zero_extend (b.take n) (by omega)
  rw [hl] at a3
  rw [a1, a2, a3]

theorem short_headRead :
    headRead (shortReadSeeker 3) ()
      = { state := (), buf := List.replicate 3 1 ++ List.replicate 65533 0, n := 3,
          err := none } := by
  unfold headRead shortReadSeeker
  dsimp only
  rw [List.length_replicate, show min 65536 3 = 3 from rfl, List.drop_replicate]

theorem short_tailRead :
    tailRead (shortReadSeeker 3) ()
      = { state := (), buf := List.replicate 3 1 ++ List.replicate 65533 0, n := 3,
          err := none } := by
  unfold tailRead shortReadSeeker
  dsimp only
  rw [List.length_replicate, show min 65536 3 = 3 from rfl, List.drop_replicate]

theorem scratch_headRead :
    headRead scratchReadSeeker ()
      = { state := (), buf := List.replicate 3 1 ++ List.replicate 65533 255, n := 3,
          err := none } := by
  unfold headRead scratchReadSeeker
  dsimp only
  rw [List.length_replicate, show min 65536 3 = 3 from rfl]

theorem scratch_tailRead :
    tailRead scratchReadSeeker ()
      = { state := (), buf := List.replicate 3 1 ++ List.replicate 65533 255, n := 3,
          err := none } := by
  unfold tailRead scratchReadSeeker
  dsimp only
  rw [List.length_replicate, show min 65536 3 = 3 from rfl]

theorem getD_append_of_le (a b : List Byte) (k : Nat) (h : a.length ≤ k) :
    (a ++ b).getD k 0 = b.getD (k - a.length) 0 := by
  rw [List.getD_eq_getElem?_getD, List.getD_eq_getElem?_getD, List.getElem?_append_right h]

theorem getD_replicate_of_lt (n : Nat) (b : Byte) (k : Nat) (h : k < n) :
    (List.replicate n b).getD k 0 = b := by
  rw [List.getD_eq_getElem?_getD, List.getElem?_replicate, if_pos h]
  rfl

theorem scratch_first_word :
    wordSum (List.replicate 3 (1 : Byte) ++ List.replicate 65533 255) 0 1
      = 18446744073692840193 := by
  have e : wordSum (List.replicate 3 (1 : Byte) ++ List.replicate 65533 255) 0 1
      = wordSum ([1, 1, 1, 255, 255, 255, 255, 255] : List Byte) 0 1 := by
    apply wordSum_congr
    intro k hk
    rw [Nat.zero_add]
    by_cases h3 : k < 3
    · rw [getD_append_of_lt _ _ _ (by rw [List.length_replicate]; exact h3)]
      interval_cases k <;> rfl
    · rw [getD_append_of_le _ _ _ (by rw [List.length_replicate]; omega),
        List.length_replicate, getD_replicate_of_lt _ _ _ (by omega)]
      interval_cases k <;> first | omega | rfl
  rw [e]
  decide

theorem scratch_wordSum :
    wordSum (List.replicate 3 (1 : Byte) ++ List.replicate 65533 255) 0 8192
      = 18446744073692840193 + 8191 * (255 * 72340172838076673) := by
  have e : wordSum (List.replicate 3 (1 : Byte) ++ List.replicate 65533 255) (0 + 8 * 1) 8191
      = wordSum (List.replicate 65533 (255 : Byte)) 5 8191 := by
    apply wordSum_congr
    intro k _
    rw [getD_append_of_le _ _ _ (by rw [List.length_replicate]; omega), List.length_replicate]
    congr 1
    omega
  rw [show (8192 : Nat) = 1 + 8191 from rfl, wordSum_add, scratch_first_word, e,
    wordSum_replicate 65533 255 5 8191 (by norm_num)]
  rfl

theorem scratch_reads :
    ((headRead scratchReadSeeker ()).buf = List.replicate 3 1 ++ List.replicate 65533 255
      ∧ (headRead scratchReadSeeker ()).n = 3 ∧ (headRead scratchReadSeeker ()).err = none) ∧
    ((tailRead scratchReadSeeker ()).buf = List.replicate 3 1 ++ List.replicate 65533 255
      ∧ (tailRead scratchReadSeeker ()).n = 3 ∧ (tailRead scratchReadSeeker ()).err = none) := by
  rw [scratch_headRead, scratch_tailRead]
  exact ⟨⟨rfl, rfl, rfl⟩, ⟨rfl, rfl, rfl⟩⟩

theorem short_reads :
    ((headRead (shortReadSeeker 3) ()).buf = List.replicate 3 1 ++ List.replicate 65533 0
      ∧ (headRead (shortReadSeeker 3) ()).n = 3
      ∧ (headRead (shortReadSeeker 3) ()).err = none) ∧
    ((tailRead (shortReadSeeker 3) ()).buf = List.replicate 3 1 ++ List.replicate 65533 0
      ∧ (tailRead (shortReadSeeker 3) ()).n = 3
      ∧ (tailRead (shortReadSeeker 3) ()).err = none) := by
  rw [short_headRead, short_tailRead]
  exact ⟨⟨rfl, rfl, rfl⟩, ⟨rfl, rfl, rfl⟩⟩

/-- Counterexample to C7 as stated: a stream whose reads return 3 bytes of value 1 without
error and use the rest of the buffer as scratch space, leaving 255 in it. The claimed hash,
from the bytes read alone, is `2 * 0x010101 + 7 = 131593`; `HashReader` sums the whole
buffers and returns `18446744073676112395`. -/
theorem HashReader_counts_scratch_bytes :
    ((headRead scratchReadSeeker ()).n = 3 ∧ (headRead scratchReadSeeker ()).err = none
      ∧ (headRead scratchReadSeeker ()).buf.take 3 = [1, 1, 1]) ∧
    ((tailRead scratchReadSeeker ()).n = 3 ∧ (tailRead scratchReadSeeker ()).err = none
      ∧ (tailRead scratchReadSeeker ()).buf.take 3 = [1, 1, 1]) ∧
    (wordSum [1, 1, 1] 0 ((3 + 7) / 8) + wordSum [1, 1, 1] 0 ((3 + 7) / 8) + 7) % 2 ^ 64
      = 131593 ∧
    (HashReader scratchReadSeeker () 7).1 = (18446744073676112395, none) ∧
    (HashReader scratchReadSeeker () 7).1 ≠ (131593, none) := by
  obtain ⟨⟨hb1, hn1, he1⟩, ⟨hb2, hn2, he2⟩⟩ := scratch_reads
  have h3 : (3 : Nat) ≠ 0 := by decide
  have hv : (HashReader scratchReadSeeker () 7).1 = (18446744073676112395, none) := by
    rw [HashReader_success scratchReadSeeker () 7 (Or.inl he1) (hn1 ▸ h3) (Or.inl he2)
      (hn2 ▸ h3), hb1, hb2, scratch_wordSum]
    norm_num
  have ht : (List.replicate 3 (1 : Byte) ++ List.replicate 65533 255).take 3 = [1, 1, 1] :=
    List.take_left' (List.length_replicate _ _)
  refine ⟨⟨hn1, he1, ?_⟩, ⟨hn2, he2, ?_⟩, by decide, hv, ?_⟩
  · rw [hb1]
    exact ht
  · rw [hb2]
    exact ht
  · rw [hv]
    decide

/-- C7, amended: `HashReader` tolerates short reads and hashes the two whole buffers. For
every seekable stream and supplied size, if the head read returns `n1 > 0` bytes and the
tail read returns `n2 > 0` bytes (at most 65536 each) and neither read reports an error
other than end-of-stream, `HashReader` succeeds and its hash is `(sum of the 8192
little-endian 64-bit words of the head buffer + sum of the 8192 words of the tail buffer +
size) mod 2 ^ 64`, the buffers taken as the reads left them. When each read leaves the
part of its zeroed buffer beyond the bytes read as it was, this is `(sum of the
little-endian 64-bit words of the n1 head bytes + sum of the little-endian 64-bit words
of the n2 tail bytes + size) mod 2 ^ 64`, each block taken on its own with a trailing
partial word zero-extended: the bytes that were not read contribute nothing. -/
theorem HashReader_short_reads {σ : Type} (reader : ReadSeeker σ) (s : σ) (size : Nat)
    (hn1 : 0 < (headRead reader s).n)
    (he1 : (headRead reader s).err = none ∨ (headRead reader s).err = some Error.EOF)
    (hn2 : 0 < (tailRead reader s).n)
    (he2 : (tailRead reader s).err = none ∨ (tailRead reader s).err = some Error.EOF) :
    (headRead reader s).n ≤ 65536 ∧ (tailRead reader s).n ≤ 65536 ∧
    (HashReader reader s size).1
      = ((wordSum (headRead reader s).buf 0 8192 + wordSum (tailRead reader s).buf 0 8192
          + size) % 2 ^ 64, none) ∧
    ((headRead reader s).buf.drop (headRead reader s).n
        = List.replicate (65536 - (headRead reader s).n) 0 →
      (tailRead reader s).buf.drop (tailRead reader s).n
        = List.replicate (65536 - (tailRead reader s).n) 0 →
      (HashReader reader s size).1
        = ((wordSum ((headRead reader s).buf.take (headRead reader s).n) 0
              (((headRead reader s).n + 7) / 8)
            + wordSum ((tailRead reader s).buf.take (tailRead reader s).n) 0
              (((tailRead reader s).n + 7) / 8)
            + size) % 2 ^ 64, none)) := by
  have l1 := headRead_n_le reader s
  have l2 := tailRead_n_le reader s
  have hs := HashReader_success reader s size he1 (by omega) he2 (by omega)
  refine ⟨l1, l2, hs, ?_⟩
  intro h1 h2
  rw [hs, wordSum_of_zero_rest _ _ (headRead_buf_length reader s) l1 h1,
    wordSum_of_zero_rest _ _ (tailRead_buf_length reader s) l2 h2]

/-- Witness of C7, amended: a stream that delivers three bytes of value 1 per read and
leaves the rest of the buffer as it was; the hash is `2 * 0x010101 + 7`. -/
theorem HashReader_short_reads_witness :
    (headRead (shortReadSeeker 3) ()).n = 3 ∧
    (tailRead (shortReadSeeker 3) ()).n = 3 ∧
    (HashReader (shortReadSeeker 3) () 7).1 = (131593, none) := by
  obtain ⟨⟨hb1, hn1, he1⟩, ⟨hb2, hn2, he2⟩⟩ := short_reads
  have h3 : (0 : Nat) < 3 := by decide
  have hd : (List.replicate 3 (1 : Byte) ++ List.replicate 65533 0).drop 3
      = List.replicate (65536 - 3) 0 :=
    List.drop_left' (List.length_replicate _ _)
  have ht : (List.replicate 3 (1 : Byte) ++ List.replicate 65533 0).take 3 = [1, 1, 1] :=
    List.take_left' (List.length_replicate _ _)
  have h := (HashReader_short_reads (shortReadSeeker 3) () 7 (by rw [hn1]; exact h3)
    (Or.inl he1) (by rw [hn2]; exact h3) (Or.inl he2)).2.2.2
    (by rw [hb1, hn1]; exact hd) (by rw [hb2, hn2]; exact hd)
  rw [hb1, hn1, hb2, hn2, ht] at h
  exact ⟨hn1, hn2, h.trans (by decide)⟩

theorem sub_emod_of_add_mod (x a b : Nat) :
    ((((x + a) % 2 ^ 64 : Nat) : Int) - (((x + b) % 2 ^ 64 : Nat) : Int)) % 2 ^ 64
      = ((a : Int) - (b : Int)) % 2 ^ 64 := by
  push_cast
  rw [Int.sub_emod, Int.emod_emod, Int.emod_emod, ← Int.sub_emod]
  congr 1
  ring

/-- C8: `HashReader` uses the caller-supplied size and never checks it against the stream.
For every stream and every two sizes `s1` and `s2`, the error that `HashReader` returns is
the same for both sizes (success or failure does not depend on the size), and where
`HashReader` succeeds, `HashReader(stream, s1) - HashReader(stream, s2) = s1 - s2`
modulo `2 ^ 64`. -/
theorem HashReader_size_shift {σ : Type} (reader : ReadSeeker σ) (s : σ) (s1 s2 : Nat) :
    (HashReader reader s s1).1.2 = (HashReader reader s s2).1.2 ∧
    ((HashReader reader s s1).1.2 = none →
      (((HashReader reader s s1).1.1 : Int) - ((HashReader reader s s2).1.1 : Int)) % 2 ^ 64
        = ((s1 : Int) - (s2 : Int)) % 2 ^ 64) := by
  by_cases h : ((headRead reader s).err = none ∨ (headRead reader s).err = some Error.EOF)
      ∧ (headRead reader s).n ≠ 0
      ∧ ((tailRead reader s).err = none ∨ (tailRead reader s).err = some Error.EOF)
      ∧ (tailRead reader s).n ≠ 0
  · obtain ⟨he1, hn1, he2, hn2⟩ := h
    rw [HashReader_success reader s s1 he1 hn1 he2 hn2,
      HashReader_success reader s s2 he1 hn1 he2 hn2]
    exact ⟨rfl, fun _ => sub_emod_of_add_mod _ s1 s2⟩
  · have hf := HashReader_failure reader s s1 h
    constructor
    · rw [hf.2.2 s2]
    · intro hok
      exact absurd hok hf.2.1

/-- Witness of C8: on the stream that delivers three bytes per read, `HashReader` succeeds
for the sizes 5 and 9, and the two hashes differ by `5 - 9` modulo `2 ^ 64`. -/
theorem HashReader_size_shift_witness :
    (HashReader (shortReadSeeker 3) () 5).1.2 = none ∧
    (((HashReader (shortReadSeeker 3) () 5).1.1 : Int)
        - ((HashReader (shortReadSeeker 3) () 9).1.1 : Int)) % 2 ^ 64
      = ((5 : Int) - (9 : Int)) % 2 ^ 64 :=
  have hok : (HashReader (shortReadSeeker 3) () 5).1.2 = none :=
    congrArg Prod.snd (HashReader_success (shortReadSeeker 3) () 5
      (Or.inl short_reads.1.2.2) (by rw [short_reads.1.2.1]; decide)
      (Or.inl short_reads.2.2.2) (by rw [short_reads.2.2.1]; decide))
  ⟨hok, by exact_mod_cast (HashReader_size_shift (shortReadSeeker 3) () 5 9).2 hok⟩

/-! ## The hash of a file given by its path -/

/-- C9: `Hash(path)` over a file system given as a map from paths to files. If the path
cannot be opened, `Hash` fails with the open error and the hash 0; otherwise `Hash(path)`
returns exactly the result (value and error) of `HashFile` on the file at that path. -/
theorem Hash_eq_HashFile_of_open (fs : FileSystem) (path : String) :
    (∀ e, fs path = .error e → Hash fs path = (0, some e)) ∧
    (∀ file, fs path = .ok file → Hash fs path = HashFile file) :=
  ⟨fun e h => Hash_open_err fs path e h, fun file h => Hash_ok fs path file h⟩

/-- Witness of C9: in the sample file system the empty path does not open and the path
"a" opens to a sample file. -/
theorem Hash_eq_HashFile_of_open_witness :
    Hash sampleFS "" = (0, some (Error.other 2)) ∧
    Hash sampleFS "a" = HashFile (sampleFile "a" 0) :=
  ⟨(Hash_eq_HashFile_of_open sampleFS "").1 (Error.other 2) rfl,
   (Hash_eq_HashFile_of_open sampleFS "a").2 (sampleFile "a" 0)
     (sampleFS_open "a" (by decide))⟩

/-! ## The server address of a new client -/

/-- C10: `NewClient` selects the server address from the environment. With the value of the
variable `OSDB_SERVER` an explicit input, the address handed to the RPC transport
constructor is that value when it is non-empty, and the built-in default address when
the variable is absent or empty: whatever the constructor is, the result of `NewClient` is
built from the constructor applied to that address. -/
theorem NewClient_server_address {τ : Type} (DefaultOSDBServer DefaultUserAgent : String)
    (env : Environ) (xmlrpcNewClient : String → Except Error τ) :
    (∀ v, env "OSDB_SERVER" = some v → v ≠ "" →
      NewClient DefaultOSDBServer DefaultUserAgent env xmlrpcNewClient
        = match xmlrpcNewClient v with
          | .error err => (none, some err)
          | .ok rpc => (some { UserAgent := DefaultUserAgent, Client := rpc }, none)) ∧
    (env "OSDB_SERVER" = none ∨ env "OSDB_SERVER" = some "" →
      NewClient DefaultOSDBServer DefaultUserAgent env xmlrpcNewClient
        = match xmlrpcNewClient DefaultOSDBServer with
          | .error err => (none, some err)
          | .ok rpc => (some { UserAgent := DefaultUserAgent, Client := rpc }, none)) := by
  constructor
  · intro v hv hne
    unfold NewClient Getenv
    rw [hv]
    simp only [Option.getD_some, if_neg hne]
  · intro h
    unfold NewClient Getenv
    rcases h with h | h
    · rw [h]
      simp only [Option.getD_none, if_true]
    · rw [h]
      simp only [Option.getD_some, if_true]

/-- Witness of C10: with a transport constructor that records the address it is given, the
client holds the address of the environment, and the default one in an empty environment. -/
theorem NewClient_server_address_witness :
    NewClient "default" "agent" (fun _ => some "http://localhost") (fun a => Except.ok a)
      = (some { UserAgent := "agent", Client := "http://localhost" }, none) ∧
    NewClient "default" "agent" (fun _ => none) (fun a => Except.ok a)
      = (some { UserAgent := "agent", Client := "default" }, none) :=
  ⟨(NewClient_server_address "default" "agent" (fun _ => some "http://localhost")
      (fun a => Except.ok a)).1 "http://localhost" rfl (by decide),
   (NewClient_server_address "default" "agent" (fun _ => none)
      (fun a => Except.ok a)).2 (Or.inl rfl)⟩

/-! ## Failure and success of client construction -/

/-- C11: `NewClient` fails if and only if the RPC transport constructor (called on the
selected server address) fails, and then returns no client together with that error;
whenever it succeeds, the identification string `UserAgent` of the returned client is the
built-in default literal and its transport is the one just constructed, whatever the
environment holds. -/
theorem NewClient_fails_iff_transport_fails {τ : Type}
    (DefaultOSDBServer DefaultUserAgent : String) (env : Environ)
    (xmlrpcNewClient : String → Except Error τ) :
    ((NewClient DefaultOSDBServer DefaultUserAgent env xmlrpcNewClient).2 ≠ none ↔
      ∃ err, xmlrpcNewClient (if Getenv env "OSDB_SERVER" = "" then DefaultOSDBServer
        else Getenv env "OSDB_SERVER") = .error err) ∧
    (∀ err, xmlrpcNewClient (if Getenv env "OSDB_SERVER" = "" then DefaultOSDBServer
        else Getenv env "OSDB_SERVER") = .error err →
      NewClient DefaultOSDBServer DefaultUserAgent env xmlrpcNewClient = (none, some err)) ∧
    (∀ rpc, xmlrpcNewClient (if Getenv env "OSDB_SERVER" = "" then DefaultOSDBServer
        else Getenv env "OSDB_SERVER") = .ok rpc →
      NewClient DefaultOSDBServer DefaultUserAgent env xmlrpcNewClient
        = (some { UserAgent := DefaultUserAgent, Client := rpc }, none)) ∧
    (∀ c, (NewClient DefaultOSDBServer DefaultUserAgent env xmlrpcNewClient).1 = some c →
      (NewClient DefaultOSDBServer DefaultUserAgent env xmlrpcNewClient).2 = none
        ∧ c.UserAgent = DefaultUserAgent
        ∧ xmlrpcNewClient (if Getenv env "OSDB_SERVER" = "" then DefaultOSDBServer
            else Getenv env "OSDB_SERVER") = .ok c.Client) := by
  unfold NewClient
  simp only
  cases h : xmlrpcNewClient (if Getenv env "OSDB_SERVER" = "" then DefaultOSDBServer
      else Getenv env "OSDB_SERVER") with
  | error e =>
    refine ⟨⟨fun _ => ⟨e, rfl⟩, fun _ => by simp⟩, ?_, ?_, ?_⟩
    · intro err herr
      cases herr
      rfl
    · intro rpc hrpc
      cases hrpc
    · intro c hc
      cases hc
  | ok rpc =>
    refine ⟨⟨fun hne => absurd rfl hne, fun ⟨err, herr⟩ => by cases herr⟩, ?_, ?_, ?_⟩
    · intro err herr
      cases herr
    · intro rpc2 hrpc
      cases hrpc
      rfl
    · intro c hc
      cases hc
      exact ⟨rfl, rfl, rfl⟩

/-- Witness of C11: a transport constructor that always fails, and one that records the
address it is given, in an environment that sets the variable. -/
theorem NewClient_fails_iff_transport_fails_witness :
    NewClient "default" "agent" (fun _ => some "srv")
        (fun _ => (Except.error (Error.other 1) : Except Error String))
      = (none, some (Error.other 1)) ∧
    NewClient "default" "agent" (fun _ => some "srv") (fun a => Except.ok a)
      = (some { UserAgent := "agent", Client := "srv" }, none) :=
  ⟨(NewClient_fails_iff_transport_fails "default" "agent" (fun _ => some "srv")
      (fun _ => (Except.error (Error.other 1) : Except Error String))).2.1
      (Error.other 1) rfl,
   (NewClient_fails_iff_transport_fails "default" "agent" (fun _ => some "srv")
      (fun a => Except.ok a)).2.2.1 "srv" rfl⟩

/-! ## The buffer length that `hashFromBuffer` accepts -/

theorem hashFromBuffer_short (buf : List Byte) (fileSize : Nat)
    (h : buf.length < 8 * numsLen) :
    hashFromBuffer buf fileSize
      = (0, some (if buf.length = 0 then Error.EOF else Error.unexpectedEOF)) := by
  unfold hashFromBuffer binaryRead
  by_cases h0 : buf.length = 0
  · rw [if_pos h0, if_pos h0]
  · rw [if_neg h0, if_pos h, if_neg h0]

/-- Counterexample to C15 as stated: a buffer of one word (8 bytes, a multiple of 8 and at
most 131072) is not accepted; `hashFromBuffer` returns the hash 0 and the error
`io.ErrUnexpectedEOF` instead of the word sum plus the size. -/
theorem hashFromBuffer_rejects_one_word :
    ([1, 0, 0, 0, 0, 0, 0, 0] : List Byte).length % 8 = 0 ∧
    ([1, 0, 0, 0, 0, 0, 0, 0] : List Byte).length ≤ 131072 ∧
    hashFromBuffer [1, 0, 0, 0, 0, 0, 0, 0] 5 = (0, some Error.unexpectedEOF) ∧
    hashFromBuffer [1, 0, 0, 0, 0, 0, 0, 0] 5
      ≠ ((wordSum [1, 0, 0, 0, 0, 0, 0, 0] 0 1 + 5) % 2 ^ 64, none) := by
  decide

/-- C15, amended: the shared hash computation accepts only buffers that hold the full
16384 words. For every buffer and every file size, if the buffer has at least 131072
bytes (exactly 131072 on both paths of the code), `hashFromBuffer` succeeds and returns
`(sum of the 16384 little-endian 64-bit words of its first 131072 bytes + file size)
mod 2 ^ 64`; if it has fewer than 131072 bytes, `hashFromBuffer` fails and returns the
hash 0, with the error `io.EOF` for the empty buffer and `io.ErrUnexpectedEOF` otherwise. -/
theorem hashFromBuffer_full_buffer_only (buf : List Byte) (fileSize : Nat) :
    (131072 ≤ buf.length →
      hashFromBuffer buf fileSize = ((wordSum buf 0 16384 + fileSize) % 2 ^ 64, none)) ∧
    (buf.length < 131072 →
      hashFromBuffer buf fileSize
        = (0, some (if buf.length = 0 then Error.EOF else Error.unexpectedEOF))) := by
  have hN : numsLen = 16384 := rfl
  constructor
  · intro h
    rw [hashFromBuffer_ok buf fileSize (by omega), hN]
  · intro h
    exact hashFromBuffer_short buf fileSize (by omega)

/-- Witness of C15, amended: a buffer of 131072 bytes of value 1 is accepted, and the empty
buffer is rejected with `io.EOF`. -/
theorem hashFromBuffer_full_buffer_only_witness :
    hashFromBuffer (List.replicate 131072 1) 5 = (4629771061636907013, none) ∧
    hashFromBuffer [] 5 = (0, some Error.EOF) :=
  ⟨((hashFromBuffer_full_buffer_only (List.replicate 131072 1) 5).1
      (by rw [List.length_replicate])).trans (by
        rw [wordSum_replicate 131072 1 0 16384 (by norm_num), Fin.val_one]
        norm_num),
   (hashFromBuffer_full_buffer_only [] 5).2 (by decide)⟩

/-! ## The hash of an in-memory stream -/

theorem bytes_seek_start (c : List Byte) (i : Int) :
    BytesReader.Seek ⟨c, i⟩ 0 Whence.SeekStart = (⟨c, 0⟩, 0, none) := by
  unfold BytesReader.Seek
  simp only
  rw [if_neg (by omega)]

theorem bytes_seek_end_ok (c : List Byte) (i : Int) (hc : 65536 ≤ c.length) :
    BytesReader.Seek ⟨c, i⟩ (-65536) Whence.SeekEnd
      = (⟨c, ((c.length - 65536 : Nat) : Int)⟩, ((c.length - 65536 : Nat) : Int), none) := by
  have hsub : (c.length : Int) + -65536 = ((c.length - 65536 : Nat) : Int) := by omega
  unfold BytesReader.Seek
  simp only
  rw [hsub, if_neg (by omega)]

theorem bytes_seek_end_fail (c : List Byte) (i : Int) (hc : c.length < 65536) :
    BytesReader.Seek ⟨c, i⟩ (-65536) Whence.SeekEnd
      = (⟨c, i⟩, 0, some Error.negativePosition) := by
  unfold BytesReader.Seek
  simp only
  rw [if_pos (by omega)]

theorem bytes_read_inside (c : List Byte) (k : Nat) (p : List Byte) (hk : k < c.length) :
    BytesReader.Read ⟨c, (k : Int)⟩ p
      = { state := ⟨c, (k : Int) + (((c.drop k).take p.length).length : Int)⟩,
          buf := (c.drop k).take p.length ++ p.drop ((c.drop k).take p.length).length,
          n := ((c.drop k).take p.length).length, err := none } := by
  unfold BytesReader.Read
  dsimp only
  rw [if_neg (by omega), Int.toNat_ofNat]

theorem bytes_read_at_end (c : List Byte) (i : Int) (p : List Byte)
    (hi : (c.length : Int) ≤ i) :
    BytesReader.Read ⟨c, i⟩ p = { state := ⟨c, i⟩, buf := p, n := 0, err := some Error.EOF } := by
  unfold BytesReader.Read
  dsimp only
  rw [if_pos (by omega)]

theorem bytes_headRead (c : List Byte) (i : Int) (hc : 0 < c.length) :
    headRead bytesReadSeeker ⟨c, i⟩
      = { state := ⟨c, ((c.take 65536).length : Int)⟩,
          buf := c.take 65536 ++ List.replicate (65536 - (c.take 65536).length) 0,
          n := (c.take 65536).length, err := none } := by
  have h := bytes_read_inside c 0 (List.replicate 65536 0) hc
  rw [List.drop_zero, Nat.cast_zero, Int.zero_add, List.length_replicate,
    List.drop_replicate] at h
  unfold headRead bytesReadSeeker
  dsimp only
  rw [bytes_seek_start, h]

theorem bytes_tailRead_large (c : List Byte) (i : Int) (hc : 65536 ≤ c.length) :
    tailRead bytesReadSeeker ⟨c, i⟩
      = { state := ⟨c, (c.length : Int)⟩, buf := c.drop (c.length - 65536), n := 65536,
          err := none } := by
  have hl : (c.drop (c.length - 65536)).length = 65536 := by
    rw [List.length_drop]; omega
  have ht : (c.drop (c.length - 65536)).take 65536 = c.drop (c.length - 65536) :=
    List.take_of_length_le (by omega)
  have h := bytes_read_inside c (c.length - 65536) (List.replicate 65536 0) (by omega)
  rw [List.length_replicate, ht, hl, List.drop_replicate, Nat.sub_self, List.replicate_zero,
    List.append_nil] at h
  have e : ((c.length - 65536 : Nat) : Int) + ((65536 : Nat) : Int) = (c.length : Int) := by
    omega
  rw [e] at h
  unfold tailRead
  rw [bytes_headRead c i (by omega)]
  unfold bytesReadSeeker
  dsimp only
  rw [bytes_seek_end_ok c _ hc, h]

theorem bytes_tailRead_small (c : List Byte) (i : Int) (hc : 0 < c.length)
    (hlt : c.length < 65536) :
    tailRead bytesReadSeeker ⟨c, i⟩
      = { state := ⟨c, (c.length : Int)⟩, buf := List.replicate 65536 0, n := 0,
          err := some Error.EOF } := by
  have ht : c.take 65536 = c := List.take_of_length_le (by omega)
  unfold tailRead
  rw [bytes_headRead c i hc, ht]
  unfold bytesReadSeeker
  dsimp only
  rw [bytes_seek_end_fail c _ hlt, bytes_read_at_end c _ _ (le_refl _)]

theorem bytes_headRead_empty (i : Int) :
    headRead bytesReadSeeker ⟨[], i⟩
      = { state := ⟨[], 0⟩, buf := List.replicate 65536 0, n := 0, err := some Error.EOF } := by
  unfold headRead bytesReadSeeker
  dsimp only
  rw [bytes_seek_start, bytes_read_at_end [] 0 _ (le_refl _)]

/-- Witness of C6: an in-memory stream of three bytes, whose tail read returns zero bytes,
and the empty in-memory stream, whose head read returns zero bytes. -/
theorem HashReader_zero_bytes_fails_witness :
    ((HashReader bytesReadSeeker ⟨[1, 2, 3], 0⟩ 7).1.2 ≠ none
      ∧ (HashReader bytesReadSeeker ⟨[1, 2, 3], 0⟩ 7).1.1 = 0) ∧
    ((HashReader bytesReadSeeker ⟨[], 0⟩ 7).1.2 ≠ none
      ∧ (HashReader bytesReadSeeker ⟨[], 0⟩ 7).1.1 = 0) :=
  ⟨(HashReader_zero_bytes_fails bytesReadSeeker ⟨[1, 2, 3], 0⟩ 7).2.1
     (by rw [bytes_tailRead_small [1, 2, 3] 0 (by decide) (by decide)]),
   (HashReader_zero_bytes_fails bytesReadSeeker ⟨[], 0⟩ 7).1
     (by rw [bytes_headRead_empty])⟩

/-- C16: the two entry points agree on full-size inputs. For every file of `n ≥ 65536`
bytes whose metadata query and reads succeed, `HashReader` on an in-memory seekable stream
over the same content (a `bytes.Reader`, whose `Read` returns all the available bytes up
to the length of the buffer), started at any position and given the size `n`, returns the
result of `HashFile` on the file, and that result is a success. -/
theorem HashReader_eq_HashFile (f : File) (i : Int) (hstat : f.statErr = none)
    (hread : ∀ off, f.readErr off = none) (hn : 65536 ≤ f.content.length) :
    (HashReader bytesReadSeeker ⟨f.content, i⟩ f.content.length).1 = HashFile f
      ∧ (HashFile f).2 = none := by
  have hC : ChunkSize = 65536 := rfl
  have e1 := HashFile_large f hstat (hread _) (hread _) (by omega)
  have hh := bytes_headRead f.content i (by omega)
  have ht := bytes_tailRead_large f.content i hn
  have hl1 : (f.content.take 65536).length = 65536 := by
    rw [List.length_take]; omega
  have e2 := HashReader_success bytesReadSeeker ⟨f.content, i⟩ f.content.length
    (Or.inl (by rw [hh])) (by rw [hh]; dsimp only; omega)
    (Or.inl (by rw [ht])) (by rw [ht]; dsimp only; omega)
  rw [hh, ht] at e2
  dsimp only at e2
  have a1 : wordSum (f.content.take 65536
        ++ List.replicate (65536 - (f.content.take 65536).length) 0) 0 8192
      = wordSum f.content 0 8192 := by
    apply wordSum_congr
    intro k hk
    rw [Nat.zero_add, getD_append_replicate_zero, getD_take_of_lt _ _ _ (by omega)]
  have a2 : wordSum (f.content.drop (f.content.length - 65536)) 0 8192
      = wordSum f.content (f.content.length - 65536) 8192 := by
    apply wordSum_congr
    intro k _
    rw [Nat.zero_add, getD_drop_add]
  rw [e2, e1, hC, a1, a2]
  exact ⟨rfl, rfl⟩

/-- Witness of C16: the sample file of 131073 bytes and the in-memory stream over its
content; both entry points return the same hash. -/
theorem HashReader_eq_HashFile_witness :
    (HashReader bytesReadSeeker ⟨(sampleFile "a" 0).content, 0⟩
        (sampleFile "a" 0).content.length).1 = HashFile (sampleFile "a" 0)
      ∧ (HashFile (sampleFile "a" 0)).2 = none :=
  HashReader_eq_HashFile (sampleFile "a" 0) 0 rfl (fun _ => rfl)
    (by rw [sampleFile_length]; norm_num)

/-- C17: for every in-memory seekable stream (a `bytes.Reader`) of length `L` with
`0 < L < 65536`, started at any position, and for every supplied size: the head read
leaves the position at the end, the seek to 65536 bytes before the end fails and leaves
the position unchanged, the tail read returns zero bytes, and `HashReader` fails with the
error "unable to compute hash from reader that read 0 bytes", leaving the stream
positioned at its end. -/
theorem HashReader_fails_on_short_stream (c : List Byte) (i : Int) (size : Nat)
    (hpos : 0 < c.length) (hlt : c.length < 65536) :
    (headRead bytesReadSeeker ⟨c, i⟩).state = ⟨c, (c.length : Int)⟩ ∧
    bytesReadSeeker.Seek (headRead bytesReadSeeker ⟨c, i⟩).state (-65536) Whence.SeekEnd
      = (⟨c, (c.length : Int)⟩, 0, some Error.negativePosition) ∧
    (tailRead bytesReadSeeker ⟨c, i⟩).n = 0 ∧
    HashReader bytesReadSeeker ⟨c, i⟩ size
      = ((0, some Error.readZeroBytes), ⟨c, (c.length : Int)⟩) := by
  have htk : c.take 65536 = c := List.take_of_length_le (by omega)
  have hh := bytes_headRead c i hpos
  rw [htk] at hh
  have ht := bytes_tailRead_small c i hpos hlt
  have hne : c.length ≠ 0 := by omega
  have c1 : ¬ ((headRead bytesReadSeeker ⟨c, i⟩).err ≠ none
      ∧ (headRead bytesReadSeeker ⟨c, i⟩).err ≠ some Error.EOF) := by
    rw [hh]
    exact fun h => h.1 rfl
  have c2 : ¬ (headRead bytesReadSeeker ⟨c, i⟩).n = 0 := by
    rw [hh]
    exact hne
  have c3 : ¬ ((tailRead bytesReadSeeker ⟨c, i⟩).err ≠ none
      ∧ (tailRead bytesReadSeeker ⟨c, i⟩).err ≠ some Error.EOF) := by
    rw [ht]
    exact fun h => h.2 rfl
  have c4 : (tailRead bytesReadSeeker ⟨c, i⟩).n = 0 := by
    rw [ht]
  refine ⟨by rw [hh], ?_, c4, ?_⟩
  · rw [hh]
    exact bytes_seek_end_fail c _ hlt
  · rw [HashReader_unfold, if_neg c1, if_neg c2, if_neg c3, if_pos c4, ht]

/-- Witness of C17: the in-memory stream over three bytes. -/
theorem HashReader_fails_on_short_stream_witness :
    HashReader bytesReadSeeker ⟨[1, 2, 3], 0⟩ 7
      = ((0, some Error.readZeroBytes), ⟨[1, 2, 3], 3⟩) :=
  (HashReader_fails_on_short_stream [1, 2, 3] 0 7 (by decide) (by decide)).2.2.2

/-! ## The order of the words -/

theorem swappedSampleFile_content (name : String) (mid : Byte) :
    (swappedSampleFile name mid).content
      = List.replicate 65536 2 ++ mid :: List.replicate 65536 1 := rfl

theorem sum_blockWords (c : List Byte) (off : Nat) :
    (blockWords c off).sum = wordSum c off 8192 := by
  unfold blockWords wordSum
  exact sum_map_range _ _

theorem HashFile_of_perm (f g : File) (hfs : f.statErr = none)
    (hfr : ∀ off, f.readErr off = none) (hgs : g.statErr = none)
    (hgr : ∀ off, g.readErr off = none) (hlen : f.content.length = g.content.length)
    (hn : 65536 ≤ f.content.length)
    (hperm : (headTailWords f.content).Perm (headTailWords g.content)) :
    HashFile f = HashFile g := by
  have hC : ChunkSize = 65536 := rfl
  have hsum := hperm.sum_eq
  unfold headTailWords at hsum
  rw [List.sum_append, List.sum_append, sum_blockWords, sum_blockWords, sum_blockWords,
    sum_blockWords] at hsum
  rw [HashFile_large f hfs (hfr _) (hfr _) (by omega),
    HashFile_large g hgs (hgr _) (hgr _) (by omega), hC, hsum, hlen]

theorem blockWords_congr (c d : List Byte) (off off2 : Nat)
    (h : ∀ k, k < 65536 → c.getD (off + k) 0 = d.getD (off2 + k) 0) :
    blockWords c off = blockWords d off2 := by
  unfold blockWords
  apply List.map_congr_left
  intro i hi
  have hi2 := List.mem_range.mp hi
  apply leWordAt_congr
  intro j hj
  have := h (8 * i + j) (by omega)
  simpa [Nat.add_assoc] using this

theorem headTailWords_blocks (H M T : List Byte) (hH : H.length = 65536)
    (hT : T.length = 65536) :
    headTailWords (H ++ M ++ T) = blockWords H 0 ++ blockWords T 0 := by
  have hl : (H ++ M ++ T).length - 65536 = (H ++ M).length := by
    rw [List.length_append, hT]; omega
  unfold headTailWords
  rw [hl]
  have a1 : blockWords (H ++ M ++ T) 0 = blockWords H 0 := by
    apply blockWords_congr
    intro k hk
    rw [Nat.zero_add, List.append_assoc, getD_append_of_lt _ _ _ (by omega)]
  have a2 : blockWords (H ++ M ++ T) (H ++ M).length = blockWords T 0 := by
    apply blockWords_congr
    intro k _
    rw [getD_append_add, Nat.zero_add]
  rw [a1, a2]

/-- C18: the hash is insensitive to the order of the 8-byte words it reads. For every two
files of the same size `n ≥ 131072`, their metadata queries and reads succeeding, such
that the 16384 words of the head and tail blocks of one are a permutation of those of the
other, `HashFile` returns the same result; in particular a file `H ++ M ++ T` with a head
block `H` and a tail block `T` of 65536 bytes each, and the file `T ++ M ++ H` obtained by
swapping the two blocks, have the same hash. -/
theorem HashFile_word_order (f g : File) (hfs : f.statErr = none)
    (hfr : ∀ off, f.readErr off = none) (hgs : g.statErr = none)
    (hgr : ∀ off, g.readErr off = none) :
    (f.content.length = g.content.length → 131072 ≤ f.content.length →
      (headTailWords f.content).Perm (headTailWords g.content) →
      HashFile f = HashFile g ∧ (HashFile f).2 = none) ∧
    (∀ H M T : List Byte, H.length = 65536 → T.length = 65536 →
      f.content = H ++ M ++ T → g.content = T ++ M ++ H →
      HashFile f = HashFile g ∧ (HashFile f).2 = none) := by
  have hC : ChunkSize = 65536 := rfl
  constructor
  · intro hlen hn hperm
    refine ⟨HashFile_of_perm f g hfs hfr hgs hgr hlen (by omega) hperm, ?_⟩
    rw [HashFile_large f hfs (hfr _) (hfr _) (by omega)]
  · intro H M T hH hT hf hg
    have hlen : f.content.length = g.content.length := by
      rw [hf, hg]
      simp only [List.length_append]
      omega
    have hn : 65536 ≤ f.content.length := by
      rw [hf]
      simp only [List.length_append]
      omega
    have hperm : (headTailWords f.content).Perm (headTailWords g.content) := by
      rw [hf, hg, headTailWords_blocks H M T hH hT, headTailWords_blocks T M H hT hH]
      exact List.perm_append_comm
    refine ⟨HashFile_of_perm f g hfs hfr hgs hgr hlen hn hperm, ?_⟩
    rw [HashFile_large f hfs (hfr _) (hfr _) (by omega)]

/-- Witness of C18: the sample file and the file with its two blocks swapped differ in
content and have the same hash. -/
theorem HashFile_word_order_witness :
    (sampleFile "a" 0).content = List.replicate 65536 1 ++ [0] ++ List.replicate 65536 2 ∧
    (swappedSampleFile "b" 0).content
      = List.replicate 65536 2 ++ [0] ++ List.replicate 65536 1 ∧
    HashFile (sampleFile "a" 0) = HashFile (swappedSampleFile "b" 0) ∧
    (HashFile (sampleFile "a" 0)).2 = none :=
  have e1 : (sampleFile "a" 0).content
      = List.replicate 65536 1 ++ [0] ++ List.replicate 65536 2 := by
    rw [sampleFile_content, List.append_assoc, List.singleton_append]
  have e2 : (swappedSampleFile "b" 0).content
      = List.replicate 65536 2 ++ [0] ++ List.replicate 65536 1 := by
    rw [swappedSampleFile_content, List.append_assoc, List.singleton_append]
  ⟨e1, e2,
   (HashFile_word_order (sampleFile "a" 0) (swappedSampleFile "b" 0) rfl (fun _ => rfl) rfl
     (fun _ => rfl)).2 (List.replicate 65536 1) [0] (List.replicate 65536 2)
     (List.length_replicate _ _) (List.length_replicate _ _) e1 e2⟩

/-! ## The rendering of a hash -/

theorem hexValue_hexDigit : ∀ d, d < 16 → hexValue (hexDigit d) = some d := by
  decide

theorem hexDigit_lowercase : ∀ d, d < 16 → hexDigit d ∈ "0123456789abcdef".data := by
  decide

theorem length_hexDigits (k hash : Nat) : (hexDigits k hash).length = k := by
  induction k with
  | zero => rfl
  | succ k ih => simp only [hexDigits, List.length_cons, ih]

theorem hexDigits_lowercase (k hash : Nat) :
    ∀ c ∈ hexDigits k hash, c ∈ "0123456789abcdef".data := by
  induction k with
  | zero =>
    intro c hc
    simp only [hexDigits, List.not_mem_nil] at hc
  | succ k ih =>
    intro c hc
    simp only [hexDigits, List.mem_cons] at hc
    rcases hc with rfl | hc
    · exact hexDigit_lowercase _ (Nat.mod_lt _ (by norm_num))
    · exact ih c hc

theorem parseHexChars_hexDigits (k hash acc : Nat) :
    parseHexChars (hexDigits k hash) acc = some (acc * 16 ^ k + hash % 16 ^ k) := by
  induction k generalizing acc with
  | zero => simp [hexDigits, parseHexChars, Nat.mod_one]
  | succ k ih =>
    simp only [hexDigits, parseHexChars]
    rw [hexValue_hexDigit _ (Nat.mod_lt _ (by norm_num))]
    simp only
    rw [ih, Nat.mod_pow_succ]
    congr 1
    ring

/-- C14: every 64-bit hash is rendered to the remote service as exactly 16 lowercase
hexadecimal characters, zero-padded on the left: character `i` is the digit of weight
`16 ^ (15 - i)`, and parsing the string as a base-16 number gives back the hash. The hash
`0x09a2c497663259cb` is sent as "09a2c497663259cb", with its leading zero. -/
theorem hashString_sixteen_hex_digits (hash : Nat) (h : hash < 2 ^ 64) :
    (hashString hash).length = 16 ∧
    (∀ c ∈ (hashString hash).data, c ∈ "0123456789abcdef".data) ∧
    (∀ i, i < 16 → (hashString hash).data[i]? = some (hexDigit (hash / 16 ^ (15 - i) % 16))) ∧
    parseHex (hashString hash) = some hash ∧
    hashString 0x09a2c497663259cb = "09a2c497663259cb" := by
  refine ⟨?_, ?_, ?_, ?_, by decide⟩
  · show (hexDigits 16 hash).length = 16
    exact length_hexDigits 16 hash
  · exact hexDigits_lowercase 16 hash
  · intro i hi
    show (hexDigits 16 hash)[i]? = _
    interval_cases i <;> rfl
  · unfold parseHex hashString
    have hne : hexDigits 16 hash ≠ [] := by
      intro h0
      have := length_hexDigits 16 hash
      rw [h0] at this
      exact absurd this (by decide)
    simp only [hne, if_false]
    rw [parseHexChars_hexDigits, Nat.zero_mul, Nat.zero_add, Nat.mod_eq_of_lt]
    calc hash < 2 ^ 64 := h
      _ = 16 ^ 16 := by norm_num

/-- Witness of C14: the hash of the end-to-end scenario. -/
theorem hashString_sixteen_hex_digits_witness :
    (hashString 0x09a2c497663259cb).length = 16 ∧
    parseHex (hashString 0x09a2c497663259cb) = some 0x09a2c497663259cb ∧
    hashString 0x09a2c497663259cb = "09a2c497663259cb" :=
  have h := hashString_sixteen_hex_digits 0x09a2c497663259cb (by norm_num)
  ⟨h.1, h.2.2.2.1, h.2.2.2.2⟩

/-! ## Movie identification -/

/-- C13: `DownloadSubtitles` is a pure composition over `DownloadSubtitlesByIds`. For every
subtitle collection, `DownloadSubtitles(subs)` equals `DownloadSubtitlesByIds` applied to
the list of the download identifiers of the records, in record order: both fail with the
same error or both succeed, with as many files and byte-identical decompressed content at
corresponding positions. -/
theorem DownloadSubtitles_eq_DownloadSubtitlesByIds (call : DownloadCall) (dec : Decoders)
    (token : String) (subtitles : Subtitles) :
    DownloadSubtitles call dec token subtitles
      = DownloadSubtitlesByIds call dec token (subtitles.map fun sub => sub.IDSubtitleFile) ∧
    ∀ files1 files2, DownloadSubtitles call dec token subtitles = .ok files1 →
      DownloadSubtitlesByIds call dec token (subtitles.map fun sub => sub.IDSubtitleFile)
        = .ok files2 →
      files1.length = files2.length ∧
      ∀ i : Nat, (files1[i]?).map (SubtitleFile.Reader dec)
        = (files2[i]?).map (SubtitleFile.Reader dec) := by
  refine ⟨rfl, ?_⟩
  intro files1 files2 h1 h2
  unfold DownloadSubtitles at h1
  rw [h1] at h2
  have e : files1 = files2 := Except.ok.inj h2
  rw [e]
  exact ⟨rfl, fun _ => rfl⟩

/-- Witness of C13: a collection of two records with the download identifiers 5 and 7. -/
theorem DownloadSubtitles_eq_DownloadSubtitlesByIds_witness :
    DownloadSubtitles sampleDownload sampleDecoders "" [sampleSubtitle 5, sampleSubtitle 7]
      = DownloadSubtitlesByIds sampleDownload sampleDecoders "" [5, 7] ∧
    DownloadSubtitles sampleDownload sampleDecoders "" [sampleSubtitle 5, sampleSubtitle 7]
      = .ok [{ Data := [1, 2] }, { Data := [1, 2] }] ∧
    ([{ Data := [1, 2] }, { Data := [1, 2] }] : List SubtitleFile).length
      = ([{ Data := [1, 2] }, { Data := [1, 2] }] : List SubtitleFile).length :=
  have h := DownloadSubtitles_eq_DownloadSubtitlesByIds sampleDownload sampleDecoders ""
    [sampleSubtitle 5, sampleSubtitle 7]
  ⟨h.1, rfl,
   (h.2 [{ Data := [1, 2] }, { Data := [1, 2] }] [{ Data := [1, 2] }, { Data := [1, 2] }]
    rfl rfl).1⟩

end Osdb
